import Mathlib

/-!
# Verification of the editor-buffer and AI-suggestion coordination engine

Shallow embedding of the core of `src/main.py` (class `CodeEditor`):
the regex-based lexical highlighter (`apply_syntax_highlighting`), the
tab registry (`open_file`, `close_tab`, `create_editor_tab`, `file_new`),
and the ghost-suggestion controller (`show_ai_suggestion`,
`accept_ai_suggestion`, `reject_ai_suggestion`, `clear_ai_suggestion`,
`on_key_release_for_ai`, `on_key_press_clear_ghost`, `on_mouse_click`,
`request_ai_suggestion`), together with a model of the Tk text widget
(buffer with an `ai_suggestion` tag bit per character, insertion cursor,
undo stack with Tk's autoseparator rule).

Text is modelled as `List Char`; Tk `line.col` indices are modelled as
character offsets.  Python's `\w`, `\d`, `\s` character classes are
modelled over ASCII (all inputs of the program's highlighter the claims
exercise are ASCII).
-/

set_option maxRecDepth 10000

namespace Code404

/-! ## Character classes (ASCII model of Python regex classes) -/

/-- Python regex `\w` over ASCII: letters, digits, underscore. -/
def isWordChar (c : Char) : Bool :=
  c.isAlphanum || c = '_'

/-- Python regex `\d` over ASCII. -/
def isDigitChar (c : Char) : Bool :=
  c.isDigit

/-- Python regex `\s` over ASCII: space, tab, newline, CR, FF, VT. -/
def isSpaceChar (c : Char) : Bool :=
  c = ' ' || c = '\t' || c = '\n' || c = '\x0d' || c = '\x0c' || c = '\x0b'

/-- Whether an optional character counts as a word character
(`none` = string edge, which is non-word for `\b` purposes). -/
def optWord (c : Option Char) : Bool :=
  match c with
  | none => false
  | some c => isWordChar c

/-! ## Highlight spans

`apply_syntax_highlighting` (src/main.py:670-707) matches five fixed
regex patterns over the whole buffer text with `re.finditer` and adds a
tag per match, in the order: comment, string, keyword, number, function.
A span is `(category, start offset, end offset)`. -/

inductive HlCat where
  | comment | strLit | keyword | number | function
deriving DecidableEq, Repr

structure Span where
  cat : HlCat
  start : Nat
  stop : Nat
deriving DecidableEq, Repr

/-! ### Generic `re.finditer` scanner

All five patterns match at least one character, never match the empty
string, and `re.finditer` scans left to right, retrying at the next
offset after a failed start position and resuming right after the end
of each (non-overlapping) match.

A match attempt is a function from the previous character (for `\b`)
and the remaining text to `Option (Nat × Nat) = some (rel, len1)`,
meaning: the reported span starts `rel` characters into the attempt and
has length `len1 + 1`, and scanning resumes after the span (all five
patterns end group 0 where the reported group ends).

The scan consumes at least one character per step, so running it with
the text's length as (structurally decreasing) fuel is the full
left-to-right scan. -/

def scanGo (matchAt : Option Char → List Char → Option (Nat × Nat)) :
    Nat → Nat → Option Char → List Char → List (Nat × Nat)
  | 0, _, _, _ => []
  | _, _, _, [] => []
  | fuel + 1, ofs, prev, c :: rest =>
    match matchAt prev (c :: rest) with
    | some (rel, len1) =>
        (ofs + rel, ofs + rel + len1 + 1) ::
          scanGo matchAt fuel (ofs + rel + len1 + 1) ((c :: rest).get? (rel + len1))
            (List.drop (rel + len1) rest)
    | none => scanGo matchAt fuel (ofs + 1) (some c) rest

/-- Run a scanner over a whole text (previous char = string edge). -/
def scanAll (matchAt : Option Char → List Char → Option (Nat × Nat))
    (t : List Char) : List (Nat × Nat) :=
  scanGo matchAt t.length 0 none t

/-! ### Comments: `re.finditer(r'#.*$', content, re.MULTILINE)`

At a `#`, the match runs to the end of the line (`.` does not match
newline; `$` matches before a newline or at end of text). -/

def matchComment (_prev : Option Char) (cs : List Char) : Option (Nat × Nat) :=
  match cs with
  | [] => none
  | c :: rest =>
    if c = '#' then some (0, (rest.takeWhile (fun d => d ≠ '\n')).length)
    else none

def commentSpans (t : List Char) : List (Nat × Nat) :=
  scanAll matchComment t

/-! ### Strings: `re.finditer(r'(["\'])(?:(?=(\\?))\2.)*?\1', content)`

The lazy body consumes, at each step, an escape pair `\c` when the
next character is a backslash (the lookahead is atomic and its inner
`\\?` is greedy, so the engine cannot later backtrack to consuming the
backslash alone) and a single non-newline character otherwise; the
match closes at the first occurrence of the opening quote reached this
way. -/

def strClose (q : Char) : List Char → Option Nat
  | [] => none
  | c :: rest =>
    if c = q then some 1
    else if c = '\n' then none
    else if c = '\\' then
      match rest with
      | [] => none
      | d :: rest' =>
        if d ≠ '\n' then (strClose q rest').map (· + 2) else none
    else (strClose q rest).map (· + 1)

def matchString (_prev : Option Char) (cs : List Char) : Option (Nat × Nat) :=
  match cs with
  | [] => none
  | c :: rest =>
    if c = '"' || c = '\'' then
      (strClose c rest).map (fun n => (0, n))
    else none

def stringSpans (t : List Char) : List (Nat × Nat) :=
  scanAll matchString t

/-! ### Keywords: `\b(def|class|...|True|False)\b`

Every alternative is a maximal run of word characters, so a match at a
word-boundary start position succeeds exactly when the maximal word run
starting there is one of the keywords, and the match is that run. -/

def pyKeywords : List (List Char) :=
  ["def".data, "class".data, "if".data, "elif".data, "else".data,
   "for".data, "while".data, "return".data, "import".data, "from".data,
   "as".data, "try".data, "except".data, "finally".data, "with".data,
   "lambda".data, "yield".data, "pass".data, "break".data,
   "continue".data, "and".data, "or".data, "not".data, "in".data,
   "is".data, "None".data, "True".data, "False".data]

def matchKeyword (prev : Option Char) (cs : List Char) : Option (Nat × Nat) :=
  if optWord prev then none
  else
    let run := cs.takeWhile isWordChar
    if run ≠ [] && pyKeywords.contains run then some (0, run.length - 1)
    else none

def keywordSpans (t : List Char) : List (Nat × Nat) :=
  scanAll matchKeyword t

/-! ### Numbers: `\b\d+\.?\d*\b` (the pattern in the source)

At a boundary-preceded digit, `\d+` takes the maximal digit run `d1`.
If a `.` follows, `\d*` takes the maximal digit run `d2` after it and
the engine backtracks greedily for the final `\b`:
end after `d2` if a non-word character (or the text end) follows;
otherwise end just after the `.` if a word character follows it;
otherwise drop the `.` and end after `d1` (always a boundary, since
`.` is non-word).  With no `.`, the match succeeds iff the character
after `d1` is not a word character (interior digit positions are never
boundaries, so no shorter end is possible). -/

def matchNumberCode (prev : Option Char) (cs : List Char) : Option (Nat × Nat) :=
  if optWord prev then none
  else
    let d1 := cs.takeWhile isDigitChar
    if d1.length = 0 then none
    else
      match cs.drop d1.length with
      | [] => some (0, d1.length - 1)
      | x :: cs' =>
        if x = '.' then
          let d2 := cs'.takeWhile isDigitChar
          if d2.length ≠ 0 && !optWord (cs'.get? d2.length) then
            some (0, d1.length + d2.length)
          else if optWord (cs'.get? 0) then
            some (0, d1.length)
          else
            some (0, d1.length - 1)
        else if isWordChar x then none
        else some (0, d1.length - 1)

def numberSpans (t : List Char) : List (Nat × Nat) :=
  scanAll matchNumberCode t

/-- Modelled from the spec: the pattern `\b\d+(\.\d+)?\b` that the
specification (§4.2 item 4) states for the number category, in place of
the source's `\b\d+\.?\d*\b`.  The optional group requires at least one
digit after the dot; if the group cannot end at a boundary it is
dropped entirely (its interior offers no boundary). -/
def matchNumberSpec (prev : Option Char) (cs : List Char) : Option (Nat × Nat) :=
  if optWord prev then none
  else
    let d1 := cs.takeWhile isDigitChar
    if d1.length = 0 then none
    else
      match cs.drop d1.length with
      | [] => some (0, d1.length - 1)
      | x :: cs' =>
        if x = '.' then
          let d2 := cs'.takeWhile isDigitChar
          if d2.length ≠ 0 && !optWord (cs'.get? d2.length) then
            some (0, d1.length + d2.length)
          else
            some (0, d1.length - 1)
        else if isWordChar x then none
        else some (0, d1.length - 1)

def specNumberSpans (t : List Char) : List (Nat × Nat) :=
  scanAll matchNumberSpec t

/-! ### Function names: `\bdef\s+(\w+)`, span = group 1 -/

def matchFunction (prev : Option Char) (cs : List Char) : Option (Nat × Nat) :=
  if optWord prev then none
  else
    match cs with
    | 'd' :: 'e' :: 'f' :: rest =>
      let ws := rest.takeWhile isSpaceChar
      if ws.length = 0 then none
      else
        let rest2 := rest.drop ws.length
        let ident := rest2.takeWhile isWordChar
        if ident.length = 0 then none
        else some (3 + ws.length, ident.length - 1)
    | _ => none

def functionSpans (t : List Char) : List (Nat × Nat) :=
  scanAll matchFunction t

/-! ### `apply_syntax_highlighting` (src/main.py:670-707)

Removes the five category tags, reads the whole buffer content, and
adds the spans of each category in the fixed order comment, string,
keyword, number, function, each computed independently over the entire
unmodified text; overlapping spans from earlier categories are not
removed.  Tags other than the five (e.g. `ai_suggestion`) are left in
place; since `Span.cat` ranges over exactly the five categories, the
previous five-category span set is simply discarded. -/

def tagCat (c : HlCat) : List (Nat × Nat) → List Span :=
  List.map (fun p => ⟨c, p.1, p.2⟩)

def apply_syntax_highlighting (_prevSpans : List Span) (t : List Char) :
    List Span :=
  tagCat .comment (commentSpans t) ++ tagCat .strLit (stringSpans t) ++
  tagCat .keyword (keywordSpans t) ++ tagCat .number (numberSpans t) ++
  tagCat .function (functionSpans t)

/-! ## Tk text widget model

The editor creates its text widgets with `undo=True, maxundo=-1`
(src/main.py:571-572) and Tk's default `autoseparators=True`.  The
buffer is a list of characters, each carrying a flag for whether it is
tagged `ai_suggestion` (the only tag whose presence the claims track;
the five syntax-category tags are kept separately as spans and never
interact with the ghost machinery).  Tk `line.col` indices are
character offsets; the `INSERT` mark is `cursor`.

Undo model (Tk 8.6): every `insert`/`delete` pushes an entry; with
autoseparators a separator is pushed first whenever the edit mode
(insert vs delete) differs from the previous edit mode; explicit
`edit_separator` pushes a separator and resets the mode; `edit_undo`
reverts the entries of the topmost group (down to the next separator). -/

inductive EditMode where
  | ins | del | other
deriving DecidableEq, Repr

inductive UEntry where
  /-- `txt` was inserted at offset `pos`. -/
  | insE (pos : Nat) (txt : List Char)
  /-- `txt` was deleted from offset `pos`. -/
  | delE (pos : Nat) (txt : List Char)
  | sep
deriving DecidableEq, Repr

structure TextWidget where
  /-- Buffer characters, each with its `ai_suggestion`-tag flag. -/
  buf : List (Char × Bool)
  /-- The `INSERT` mark, as a character offset. -/
  cursor : Nat
  /-- Undo stack, most recent entry first. -/
  ustack : List UEntry
  lastMode : EditMode
deriving DecidableEq, Repr

/-- Tk `TkUndoInsertUndoSeparator`: pushes a separator unless the stack
is empty or already topped by one. -/
def pushSep (st : List UEntry) : List UEntry :=
  match st with
  | [] => st
  | .sep :: _ => st
  | _ => .sep :: st

/-- Autoseparator rule: separator before an edit whose mode differs
from the last edit mode. -/
def pushEdit (m : EditMode) (e : UEntry) (w : TextWidget) : TextWidget :=
  { w with
    ustack := e :: (if w.lastMode ≠ m then pushSep w.ustack else w.ustack)
    lastMode := m }

/-- `text_widget.insert(pos, s, tag?)`.  Marks at or after `pos` shift
right (the `INSERT` mark has right gravity, so inserting at the cursor
moves the cursor to the end of the inserted text).  Inserting the empty
string is a no-op. -/
def twInsert (w : TextWidget) (pos : Nat) (s : List Char) (tagged : Bool) :
    TextWidget :=
  if s = [] then w
  else
    let w' := pushEdit .ins (.insE pos s) w
    { w' with
      buf := w.buf.take pos ++ s.map (fun c => (c, tagged)) ++ w.buf.drop pos
      cursor := if pos ≤ w.cursor then w.cursor + s.length else w.cursor }

/-- `text_widget.delete(p, q)`.  Characters in `[p, q)` are removed;
marks inside the range collapse to `p`, marks after shift left.  A
degenerate range is a no-op. -/
def twDelete (w : TextWidget) (p q : Nat) : TextWidget :=
  let q' := min q w.buf.length
  if p < q' then
    let removed := ((w.buf.drop p).take (q' - p)).map Prod.fst
    let w' := pushEdit .del (.delE p removed) w
    { w' with
      buf := w.buf.take p ++ w.buf.drop q'
      cursor :=
        if q' ≤ w.cursor then w.cursor - (q' - p)
        else if p < w.cursor then p
        else w.cursor }
  else w

/-- `text_widget.edit_separator()`. -/
def twEditSeparator (w : TextWidget) : TextWidget :=
  { w with ustack := pushSep w.ustack, lastMode := .other }

/-- Revert one undo entry against the buffer (Tk does not restore tags
on undo; re-inserted text is untagged). -/
def revertEntry (w : TextWidget) (e : UEntry) : TextWidget :=
  match e with
  | .insE pos txt =>
      { w with buf := w.buf.take pos ++ w.buf.drop (pos + txt.length)
               cursor := pos }
  | .delE pos txt =>
      { w with buf := w.buf.take pos ++ txt.map (fun c => (c, false)) ++ w.buf.drop pos
               cursor := pos + txt.length }
  | .sep => w

/-- `text_widget.edit_undo()`: revert the topmost group. -/
def twUndo (w : TextWidget) : TextWidget :=
  let rec go (st : List UEntry) (w : TextWidget) : TextWidget × List UEntry :=
    match st with
    | [] => (w, [])
    | .sep :: rest => (w, rest)
    | e :: rest => go rest (revertEntry w e)
  let stack0 := w.ustack.dropWhile (· = .sep)
  let (w', rest) := go stack0 w
  { w' with ustack := rest, lastMode := .other }

/-- Maximal `ai_suggestion`-tagged runs of a buffer, as offset pairs,
in ascending order (Tk `tag_ranges("ai_suggestion")`). -/
def taggedRanges (buf : List (Char × Bool)) : List (Nat × Nat) :=
  let rec go (ofs : Nat) (cur : Option Nat) : List (Char × Bool) → List (Nat × Nat)
    | [] => match cur with
            | some s => [(s, ofs)]
            | none => []
    | (_, t) :: rest =>
      match cur, t with
      | none, false => go (ofs + 1) none rest
      | none, true => go (ofs + 1) (some ofs) rest
      | some _, true => go (ofs + 1) cur rest
      | some s, false => (s, ofs) :: go (ofs + 1) none rest
  go 0 none buf

/-- Whether any character of the buffer carries the ghost tag, i.e.
whether a ghost suggestion is displayed in this widget. -/
def hasGhost (buf : List (Char × Bool)) : Bool :=
  buf.any (fun cb => cb.2)

/-! ## Python string helpers -/

/-- Python `str.strip()` (default: whitespace on both ends). -/
def pyStrip (s : List Char) : List Char :=
  ((s.dropWhile isSpaceChar).reverse.dropWhile isSpaceChar).reverse

/-- Python `s.split('\n')`. -/
def splitNL (s : List Char) : List (List Char) :=
  s.splitOn '\n'

/-- Python `'\n'.join(ls)`. -/
def joinNL (ls : List (List Char)) : List Char :=
  List.intercalate ['\n'] ls

/-- The suggestion clean-up of `show_ai_suggestion`
(src/main.py:1734-1740): strip, then drop the first and last line when
the stripped text starts with a markdown fence and has more than two
lines. -/
def cleanSuggestion (raw : List Char) : List Char :=
  let s := pyStrip raw
  if s.take 3 = '`' :: '`' :: '`' :: [] then
    let lines := splitNL s
    if lines.length > 2 then joinNL (lines.drop 1).dropLast else s
  else s

/-! ## Application state (class `CodeEditor`)

A `Doc` is one entry of `open_tabs` together with its text widget; the
notebook tab frame and the `Text` widget of one tab are in 1:1
correspondence, so both are identified by `Doc.id`.  `active` is the
notebook's selected tab.  The ghost-suggestion tracking state mirrors
the `CodeEditor.__init__` fields (src/main.py:21-27).  `requests` logs
every completion request handed to a background thread, and `writes`
logs every file written by save. -/

structure Doc where
  id : Nat
  tw : TextWidget
  filePath : Option String
  title : String
  modified : Bool
deriving DecidableEq, Repr

structure App where
  docs : List Doc
  active : Option Nat
  nextId : Nat
  untitledCount : Nat
  aiSuggestion : List Char
  aiWidget : Option Nat
  aiStart : Option Nat
  aiEnd : Option Nat
  isAccepting : Bool
  timer : Option Nat
  aiAvailable : Bool
  aiAutoSuggest : Bool
  requests : List Nat
  statusLeft : String
  writes : List (String × List Char)
deriving DecidableEq, Repr

def getDoc (a : App) (w : Nat) : Option Doc :=
  a.docs.find? (fun d => d.id = w)

/-- `get_current_tab_info` (src/main.py:750-759). -/
def currentTabInfo (a : App) : Option Doc :=
  a.active.bind (getDoc a)

/-- Apply a widget operation that does not change the buffer contents
(mark movements, separators). -/
def updDoc (a : App) (w : Nat) (f : TextWidget → TextWidget) : App :=
  { a with docs := a.docs.map (fun d => if d.id = w then { d with tw := f d.tw } else d) }

/-- Apply a widget edit; a buffer change fires `<<Modified>>`, whose
handler (`on_text_modified` → `mark_tab_modified`, src/main.py:640-720)
marks the tab modified. -/
def editDoc (a : App) (w : Nat) (f : TextWidget → TextWidget) : App :=
  { a with docs := a.docs.map (fun d =>
      if d.id = w then
        let tw' := f d.tw
        { d with tw := tw', modified := d.modified || decide (tw'.buf ≠ d.tw.buf) }
      else d) }

/-- The characters of a buffer (what `text_widget.get` returns; ghost
characters are included, tags are not). -/
def bufChars (tw : TextWidget) : List Char :=
  tw.buf.map Prod.fst

/-- Whether position `pos` of doc `w` carries the `ai_suggestion` tag
(`"ai_suggestion" in text_widget.tag_names(start)`); a stale position
outside the buffer has no tags. -/
def tagAt (a : App) (w : Nat) (pos : Nat) : Bool :=
  match getDoc a w with
  | none => false
  | some d => ((d.tw.buf.get? pos).map Prod.snd).getD false

/-! ## Ghost-suggestion controller -/

/-- Method 1 of `clear_ai_suggestion`: delete the range recorded in
`ai_suggestion_start_pos`/`ai_suggestion_end_pos` when the start still
carries the ghost tag. -/
def clearMethod1 (e1 : Bool) (a : App) (w : Nat) : App :=
  if e1 then a
  else
    match a.aiStart, a.aiEnd with
    | some s, some e => if tagAt a w s then editDoc a w (fun tw => twDelete tw s e) else a
    | _, _ => a

/-- Method 2: delete every remaining `ai_suggestion` tag range, last
range first. -/
def clearMethod2 (e2 : Bool) (a : App) (w : Nat) : App :=
  if e2 then a
  else
    editDoc a w (fun tw =>
      (taggedRanges tw.buf).foldr (fun r tw' => twDelete tw' r.1 r.2) tw)

/-- Method 3: `tag_remove("ai_suggestion", "1.0", END)`. -/
def clearMethod3 (e3 : Bool) (a : App) (w : Nat) : App :=
  if e3 then a
  else updDoc a w (fun tw => { tw with buf := tw.buf.map (fun cb => (cb.1, false)) })

/-- The `finally` block: reset the four tracking variables. -/
def clearReset (a : App) : App :=
  { a with aiSuggestion := [], aiWidget := none, aiStart := none, aiEnd := none }

/-- `clear_ai_suggestion` (src/main.py:1830-1870), with error
injection: `e1`/`e2`/`e3` make Method 1 (stored positions), Method 2
(tag ranges) and Method 3 (tag removal) raise before taking effect;
Methods 1 and 2 catch `tk.TclError` locally, anything else is caught by
the outer `except`, and the `finally` block always resets the four
tracking variables. -/
def clearErr (e1 e2 e3 : Bool) (a : App) (w : Nat) : App :=
  if a.aiSuggestion = [] ∨ a.aiWidget ≠ some w then a
  else clearReset (clearMethod3 e3 (clearMethod2 e2 (clearMethod1 e1 a w) w) w)

/-- `clear_ai_suggestion` in the error-free runs used by the other
operations. -/
def clearAI (a : App) (w : Nat) : App :=
  clearErr false false false a w

/-- `show_ai_suggestion` (src/main.py:1722-1788): delivery of an
asynchronous completion onto the UI thread. -/
def showAISuggestion (a : App) (w : Nat) (raw : List Char) : App :=
  match currentTabInfo a with
  | none => a
  | some cur =>
    if cur.id ≠ w then a
    else if raw = [] ∨ pyStrip raw = [] then
      { a with statusLeft := "AI: No suggestion" }
    else
      let sugg := cleanSuggestion raw
      let a1 := clearAI a w
      let a2 := { a1 with aiSuggestion := sugg, aiWidget := some w }
      match getDoc a2 w with
      | none => a2
      | some d =>
        let cpos := d.tw.cursor
        let a3 := { a2 with aiStart := some cpos }
        let a4 := updDoc a3 w twEditSeparator
        let a5 := editDoc a4 w (fun tw => twInsert tw cpos sugg true)
        let endPos := ((getDoc a5 w).map (fun d' => d'.tw.cursor)).getD (cpos + sugg.length)
        let a6 := { a5 with aiEnd := some endPos }
        let a7 := updDoc a6 w (fun tw => { tw with cursor := cpos })
        let a8 := updDoc a7 w twEditSeparator
        { a8 with statusLeft := "✨ AI: Tab to accept • Esc to reject" }

/-- `accept_ai_suggestion` (src/main.py:1790-1821), the `<Tab>`
binding.  When `ai_suggestion_start_pos` is `None` the real `insert`
raises and the `except` block runs (the ghost was already cleared). -/
def acceptAISuggestion (a : App) (w : Nat) : App :=
  if a.aiSuggestion = [] ∨ a.aiWidget ≠ some w then a
  else
    let a1 := { a with isAccepting := true }
    let sugg := a.aiSuggestion
    match a.aiStart with
    | none => { (clearAI a1 w) with isAccepting := false }
    | some p =>
      let a2 := clearAI a1 w
      let a3 := editDoc a2 w (fun tw => twInsert tw p sugg false)
      let a4 := updDoc a3 w (fun tw => { tw with cursor := p + sugg.length })
      { a4 with statusLeft := "AI: Suggestion accepted", isAccepting := false }

/-- `reject_ai_suggestion` (src/main.py:1823-1828), the `<Escape>`
binding. -/
def rejectAISuggestion (a : App) (w : Nat) : App :=
  if a.aiSuggestion ≠ [] ∧ a.aiWidget = some w then
    { (clearAI a w) with statusLeft := "AI: Suggestion rejected" }
  else a

/-- `on_mouse_click` (src/main.py:1602-1606), the `<Button-1>`
binding. -/
def onMouseClick (a : App) (w : Nat) : App :=
  if a.aiSuggestion ≠ [] ∧ a.aiWidget = some w then clearAI a w else a

/-- Keystrokes, by how the handlers classify their keysym.  `Tab` and
`Escape` have dedicated bindings and are separate events. -/
inductive Key where
  /-- An ordinary character key; the Tk class binding inserts `c`. -/
  | printable (c : Char)
  /-- `BackSpace`; the class binding deletes the character before the
  cursor.  Not in `ignored_keys`, so it is a qualifying keystroke. -/
  | backspace
  /-- `Return`; the class binding inserts a newline.  Qualifying. -/
  | returnKey
  /-- `Shift_L/R`, `Control_L/R`, `Alt_L/R`. -/
  | modifier
  /-- `Up/Down/Left/Right/Home/End/Page_Up/Page_Down`. -/
  | navigation
deriving DecidableEq, Repr

/-- `on_key_press_clear_ghost` (src/main.py:1608-1622), the widget
`<KeyPress>` binding (runs before the class binding edits the
buffer). -/
def onKeyPressClearGhost (a : App) (k : Key) (w : Nat) : App :=
  match k with
  | .modifier => a
  | _ =>
    if a.aiSuggestion ≠ [] ∧ a.aiWidget = some w ∧ a.isAccepting = false then
      clearAI a w
    else a

/-- The Tk Text class binding: the actual buffer edit of a
keystroke. -/
def classEdit (a : App) (k : Key) (w : Nat) : App :=
  match k with
  | .printable c => editDoc a w (fun tw => twInsert tw tw.cursor [c] false)
  | .returnKey => editDoc a w (fun tw => twInsert tw tw.cursor ['\n'] false)
  | .backspace => editDoc a w (fun tw => twDelete tw (tw.cursor - 1) tw.cursor)
  | _ => a

/-- Whether `on_key_release_for_ai` ignores this keysym (modifiers,
navigation; `Tab`/`Escape` are handled by their own release events). -/
def keysymIgnored (k : Key) : Bool :=
  match k with
  | .modifier => true
  | .navigation => true
  | _ => false

/-- `on_key_release_for_ai` (src/main.py:1628-1659), the `<KeyRelease>`
binding: arms (or re-arms) the debounce timer on a qualifying
keystroke. -/
def onKeyReleaseForAI (a : App) (k : Key) (w : Nat) : App :=
  if a.isAccepting then a
  else if keysymIgnored k then clearAI a w
  else if !a.aiAvailable then a
  else if !a.aiAutoSuggest then a
  else
    let a1 := clearAI a w
    { a1 with timer := some w }

/-- `on_key_release_for_ai` for the release of `Tab`/`Escape` (both in
`ignored_keys`). -/
def releaseIgnoredClear (a : App) (w : Nat) : App :=
  if a.isAccepting then a else clearAI a w

/-- Offset of the start of the line containing `pos`
(`text_widget.index(f"{cursor} linestart")`). -/
def lineStartOf (chars : List Char) (pos : Nat) : Nat :=
  pos - ((chars.take pos).reverse.takeWhile (fun c => c ≠ '\n')).length

/-- Offset of the end of the line containing `pos`
(`text_widget.index(f"{cursor} lineend")`). -/
def lineEndOf (chars : List Char) (pos : Nat) : Nat :=
  pos + ((chars.drop pos).takeWhile (fun c => c ≠ '\n')).length

/-- The line containing the cursor of doc `w`, as
`request_ai_suggestion` computes it. -/
def currentLineOf (a : App) (w : Nat) : Option (List Char) :=
  (getDoc a w).map (fun d =>
    let chars := bufChars d.tw
    (chars.take (lineEndOf chars d.tw.cursor)).drop (lineStartOf chars d.tw.cursor))

/-- `request_ai_suggestion` (src/main.py:1661-1720): the debounce-timer
callback.  Issuing the background completion thread is recorded in
`requests`.  A missing widget makes the Tk calls raise; the outer
`except` reports "AI: Error". -/
def requestAISuggestion (a : App) (w : Nat) : App :=
  let a1 := clearAI a w
  match getDoc a1 w with
  | none => { a1 with statusLeft := "AI: Error" }
  | some d =>
    match currentLineOf a1 w with
    | none => { a1 with statusLeft := "AI: Error" }
    | some currentLine =>
      if pyStrip currentLine = [] then a1
      else
        { a1 with statusLeft := "AI: Generating suggestion...",
                  requests := a1.requests ++ [d.id] }

/-- The debounce timer fires: `root.after` runs
`request_ai_suggestion` on the widget captured at arming time. -/
def timerFire (a : App) : App :=
  match a.timer with
  | none => a
  | some w => requestAISuggestion { a with timer := none } w

/-! ## Tab registry -/

/-- `notebook.select(tab)`.  In the modelled operation alphabet the
keyboard focus sits in the active tab's text widget, so selecting a
different tab unmaps that widget and fires its `<FocusOut>` binding,
which is `clear_ai_suggestion` (src/main.py:607); selecting the
already-active tab fires nothing. -/
def selectTab (a : App) (dst : Nat) : App :=
  if a.active = some dst then a
  else
    let a1 :=
      match a.active with
      | some oldW => clearAI a oldW
      | none => a
    { a1 with active := some dst }

/-- `create_editor_tab` (src/main.py:539-631): fresh widget with
`undo=True`, initial content inserted, tab added and selected,
registered in `open_tabs` with `modified: False`. -/
def createEditorTab (a : App) (title : String) (content : List Char)
    (fp : Option String) : App :=
  let tw0 : TextWidget := { buf := [], cursor := 0, ustack := [], lastMode := .other }
  let tw1 := twInsert tw0 0 content false
  let d : Doc := { id := a.nextId, tw := tw1, filePath := fp, title := title,
                   modified := false }
  let a1 :=
    match a.active with
    | some oldW => clearAI a oldW
    | none => a
  { a1 with docs := a1.docs ++ [d], active := some d.id, nextId := a.nextId + 1 }

/-- `file_new` (src/main.py:848-852): `Untitled-N` with a
monotonically increasing counter. -/
def fileNew (a : App) : App :=
  let n := a.untitledCount + 1
  createEditorTab { a with untitledCount := n } ("Untitled-" ++ toString n) [] none

/-- `os.path.basename` for slash-separated paths. -/
def basename (p : String) : String :=
  ⟨(p.data.reverse.takeWhile (fun c => c ≠ '/')).reverse⟩

/-- `open_file` (src/main.py:823-845), the registry's `openOrFocus`:
if a document with this path is registered, select its tab and return;
otherwise read the file (`content = none` models an unreadable file,
whose error dialog leaves the state unchanged) and create a tab. -/
def openFile (a : App) (path : String) (content : Option (List Char)) : App :=
  match a.docs.find? (fun d => d.filePath = some path) with
  | some d => selectTab a d.id
  | none =>
    match content with
    | none => a
    | some c => createEditorTab a (basename path) c (some path)

/-- `save_current_tab` (src/main.py:761-790): clears any ghost text,
then writes the active document to its path and resets its modified
flag; with no path the code opens the save-as dialog, modelled as the
user dismissing it. -/
def saveCurrentTab (a : App) : App :=
  match currentTabInfo a with
  | none => a
  | some d =>
    let a1 := clearAI a d.id
    match d.filePath with
    | none => a1
    | some fp =>
      let content := ((getDoc a1 d.id).map (fun d' => bufChars d'.tw)).getD []
      { a1 with
        docs := a1.docs.map (fun d' => if d'.id = d.id then { d' with modified := false } else d')
        writes := a1.writes ++ [(fp, content)] }

/-- `run_code` (src/main.py:1400-...): its editor-state effect is the
ghost clear; the optional save prompt reuses `save_current_tab`
(modelled separately) and the process spawn is external. -/
def runCode (a : App) : App :=
  match currentTabInfo a with
  | none => a
  | some d => clearAI a d.id

/-- Tab removal: `del self.open_tabs[tab_id]` + `notebook.forget`;
when the selected tab is removed the notebook selects the neighbouring
tab (same index, or the new last tab). -/
def removeTab (a : App) (idx : Nat) : App :=
  match a.docs.get? idx with
  | none => a
  | some d =>
    let docs' := a.docs.eraseIdx idx
    let active' :=
      if a.active = some d.id then
        (docs'.get? (min idx (docs'.length - 1))).map (fun d' => d'.id)
      else a.active
    { a with docs := docs', active := active' }

/-- `close_tab` (src/main.py:730-748).  `resp` is the user's answer to
the three-way `askyesnocancel` dialog (`some true` = save,
`some false` = discard, `none` = cancel); it is consulted only when
the document is modified.  Yes runs `save_current_tab` (which saves
the *active* tab, as the code does), Cancel returns before anything is
removed. -/
def closeTab (a : App) (idx : Nat) (resp : Option Bool) : App :=
  if a.docs.length = 0 then a
  else
    match a.docs.get? idx with
    | none => a
    | some d =>
      if d.modified then
        match resp with
        | some true => removeTab (saveCurrentTab a) idx
        | some false => removeTab a idx
        | none => a
      else removeTab a idx

/-! ## Event system

One event per handler invocation; a physical keystroke is the sequence
`keyPressE k`, `classEditE k`, `keyReleaseE k`.  Handler events address
the widget with keyboard focus, which in this operation alphabet is the
active tab's text widget. -/

inductive Ev where
  | keyPressE (k : Key)
  | classEditE (k : Key)
  | keyReleaseE (k : Key)
  /-- `<Tab>` binding: accept. -/
  | acceptE
  /-- `KeyRelease` of `Tab` (in `ignored_keys`). -/
  | tabReleaseE
  /-- `<Escape>` binding: reject. -/
  | escapeE
  /-- `KeyRelease` of `Escape`. -/
  | escReleaseE
  /-- `<Button-1>`: `on_mouse_click`. -/
  | clickE
  /-- `<FocusOut>` on widget `w`. -/
  | focusOutE (w : Nat)
  /-- A background completion result marshalled onto the UI thread:
  `show_ai_suggestion(text_widget, suggestion)`. -/
  | deliverE (w : Nat) (raw : List Char)
  /-- The debounce timer fires. -/
  | timerE
  /-- The user selects tab `to`. -/
  | tabSwitchE (dst : Nat)
  | saveE
  | runE
  | openE (path : String) (content : Option (List Char))
  | newE
  | closeE (idx : Nat) (resp : Option Bool)

/-- Dispatch of one UI event. -/
def step (a : App) (e : Ev) : App :=
  match e with
  | .keyPressE k =>
    match a.active with
    | none => a
    | some w => onKeyPressClearGhost a k w
  | .classEditE k =>
    match a.active with
    | none => a
    | some w => classEdit a k w
  | .keyReleaseE k =>
    match a.active with
    | none => a
    | some w => onKeyReleaseForAI a k w
  | .acceptE =>
    match a.active with
    | none => a
    | some w => acceptAISuggestion a w
  | .tabReleaseE =>
    match a.active with
    | none => a
    | some w => releaseIgnoredClear a w
  | .escapeE =>
    match a.active with
    | none => a
    | some w => rejectAISuggestion a w
  | .escReleaseE =>
    match a.active with
    | none => a
    | some w => releaseIgnoredClear a w
  | .clickE =>
    match a.active with
    | none => a
    | some w => onMouseClick a w
  | .focusOutE w => clearAI a w
  | .deliverE w raw => showAISuggestion a w raw
  | .timerE => timerFire a
  | .tabSwitchE dst =>
    match getDoc a dst with
    | none => a
    | some _ => selectTab a dst
  | .saveE => saveCurrentTab a
  | .runE => runCode a
  | .openE p c => openFile a p c
  | .newE => fileNew a
  | .closeE i r => closeTab a i r

/-- Run a sequence of events. -/
def runEvents (a : App) (es : List Ev) : App :=
  es.foldl step a

/-- The freshly started editor (`CodeEditor.__init__`,
src/main.py:10-27), with the AI-availability and auto-suggest settings
as parameters. -/
def initApp (avail autoSuggest : Bool) : App :=
  { docs := [], active := none, nextId := 0, untitledCount := 0,
    aiSuggestion := [], aiWidget := none, aiStart := none, aiEnd := none,
    isAccepting := false, timer := none, aiAvailable := avail,
    aiAutoSuggest := autoSuggest, requests := [], statusLeft := "",
    writes := [] }

/-- Number of documents currently displaying a ghost suggestion. -/
def ghostDocCount (a : App) : Nat :=
  (a.docs.filter (fun d => hasGhost d.tw.buf)).length

/-! ## The difference between the two number patterns

`\b\d+\.?\d*\b` (source) and `\b\d+(\.\d+)?\b` (spec §4.2) produce the
same spans except on texts containing a digit, a dot, then optional
digits followed by a letter or underscore (there the source pattern
also consumes the dot). -/

/-- Starts with `.`, then some digits, then a letter or underscore. -/
def dotBad (l : List Char) : Bool :=
  match l with
  | '.' :: r =>
    (match r.dropWhile isDigitChar with
     | x :: _ => isWordChar x
     | [] => false)
  | _ => false

/-- The text contains a digit followed by a bad dot sequence. -/
def hasBadDot : List Char → Bool
  | [] => false
  | c :: rest => (isDigitChar c && dotBad rest) || hasBadDot rest

lemma hasBadDot_cons_false {c : Char} {l : List Char}
    (h : hasBadDot (c :: l) = false) : hasBadDot l = false := by
  simp only [hasBadDot, Bool.or_eq_false_iff] at h
  exact h.2

lemma hasBadDot_drop {l : List Char} (h : hasBadDot l = false) :
    ∀ k, hasBadDot (l.drop k) = false := by
  induction l with
  | nil => intro k; simp [List.drop_nil, hasBadDot]
  | cons c rest ih =>
    intro k
    cases k with
    | zero => exact h
    | succ n => exact ih (hasBadDot_cons_false h) n

lemma dropWhile_eq_drop_length_takeWhile (p : Char → Bool) (l : List Char) :
    l.dropWhile p = l.drop (l.takeWhile p).length := by
  induction l with
  | nil => rfl
  | cons c rest ih =>
    by_cases hc : p c
    · simp [List.dropWhile_cons, List.takeWhile_cons, hc, ih]
    · simp [List.dropWhile_cons, List.takeWhile_cons, hc]

lemma head?_drop_eq_get? (l : List Char) (n : Nat) :
    (l.drop n).head? = l.get? n := by
  induction l generalizing n with
  | nil => cases n <;> rfl
  | cons c rest ih =>
    cases n with
    | zero => rfl
    | succ m => exact ih m

/-- In a bad-dot-free text, the dot sequence following a leading digit
run is good. -/
lemma badAtDot {cs cs' : List Char} (h : hasBadDot cs = false)
    (h1 : (cs.takeWhile isDigitChar).length ≠ 0)
    (h2 : cs.drop (cs.takeWhile isDigitChar).length = '.' :: cs') :
    dotBad ('.' :: cs') = false := by
  induction cs generalizing cs' with
  | nil => simp at h1
  | cons c rest ih =>
    by_cases hc : isDigitChar c
    · simp only [List.takeWhile_cons, hc, if_true, List.length_cons,
        List.drop_succ_cons] at h1 h2
      have hdb : dotBad rest = false := by
        simp only [hasBadDot, Bool.or_eq_false_iff, Bool.and_eq_false_iff] at h
        rcases h.1 with h' | h'
        · rw [hc] at h'; cases h'
        · exact h'
      have hrest : hasBadDot rest = false := hasBadDot_cons_false h
      by_cases hz : (rest.takeWhile isDigitChar).length = 0
      · rw [hz, List.drop_zero] at h2
        rw [← h2]; exact hdb
      · exact ih hrest hz h2
    · simp [List.takeWhile_cons, hc] at h1

/-- On bad-dot-free text the source's number pattern and the spec's
number pattern have identical match attempts. -/
lemma matchNumber_eq {prev : Option Char} {cs : List Char}
    (h : hasBadDot cs = false) :
    matchNumberCode prev cs = matchNumberSpec prev cs := by
  unfold matchNumberCode matchNumberSpec
  by_cases hw : optWord prev
  · simp [hw]
  · simp only [hw, if_false]
    by_cases hz : (cs.takeWhile isDigitChar).length = 0
    · simp [hz]
    · simp only [hz, if_false]
      cases hd : cs.drop (cs.takeWhile isDigitChar).length with
      | nil => rfl
      | cons x cs' =>
        by_cases hx : x = '.'
        · subst hx
          have hbd : dotBad ('.' :: cs') = false := badAtDot h hz hd
          have hget : optWord (cs'.get? (cs'.takeWhile isDigitChar).length) = false := by
            rw [← head?_drop_eq_get?, ← dropWhile_eq_drop_length_takeWhile]
            simp only [dotBad] at hbd
            cases hdw : cs'.dropWhile isDigitChar with
            | nil => rfl
            | cons y ys => rw [hdw] at hbd; simpa [optWord] using hbd
          by_cases hz2 : (cs'.takeWhile isDigitChar).length = 0
          · have hget0 : optWord (cs'.get? 0) = false := by
              rw [hz2] at hget
              exact hget
            rw [List.get?_eq_getElem?] at hget hget0
            simp [hz2, hget, hget0]
          · rw [List.get?_eq_getElem?] at hget
            simp [hz2, hget]
        · simp [hx]

/-- Two scanners whose match attempts agree on all suffixes of a text
produce the same spans. -/
lemma scanGo_congr {m1 m2 : Option Char → List Char → Option (Nat × Nat)}
    {P : List Char → Bool}
    (hP : ∀ l, P l = false → ∀ k, P (l.drop k) = false)
    (hm : ∀ prev cs, P cs = false → m1 prev cs = m2 prev cs) :
    ∀ fuel ofs prev cs, P cs = false →
      scanGo m1 fuel ofs prev cs = scanGo m2 fuel ofs prev cs := by
  intro fuel
  induction fuel with
  | zero => intro ofs prev cs _; cases cs <;> rfl
  | succ n ih =>
    intro ofs prev cs hcs
    cases cs with
    | nil => rfl
    | cons c rest =>
      simp only [scanGo]
      rw [hm prev (c :: rest) hcs]
      cases hm2 : m2 prev (c :: rest) with
      | none =>
        dsimp only
        exact ih (ofs + 1) (some c) rest (hP _ hcs 1)
      | some rl =>
        obtain ⟨rel, len1⟩ := rl
        dsimp only
        congr 1
        apply ih
        have heq : List.drop (rel + len1) rest = List.drop (rel + len1 + 1) (c :: rest) := rfl
        rw [heq]
        exact hP _ hcs (rel + len1 + 1)

/-! ## Claim theorems: highlighter -/

/-- **C6**: for every text `T` (and any previously applied span set),
the highlighter matches the five categories independently over the
whole unmodified `T` and applies the spans in the fixed order comment,
string, keyword, number, function, without removing overlaps of
earlier categories; re-running it yields the same span set regardless
of the previous spans; and on the concrete text `"# if 1 'a 2'"` the
keyword `if` and the numbers inside the comment/string receive their
own spans overlapping the comment and string spans (the last-applied
category is the one Tk paints on top). -/
theorem c6_highlight_order_overlap_deterministic
    (prev prev' : List Span) (t : List Char) :
    apply_syntax_highlighting prev t =
      tagCat .comment (commentSpans t) ++ tagCat .strLit (stringSpans t) ++
      tagCat .keyword (keywordSpans t) ++ tagCat .number (numberSpans t) ++
      tagCat .function (functionSpans t) ∧
    apply_syntax_highlighting prev t = apply_syntax_highlighting prev' t ∧
    (Span.mk .comment 0 12 ∈ apply_syntax_highlighting [] "# if 1 'a 2'".data ∧
     Span.mk .keyword 2 4 ∈ apply_syntax_highlighting [] "# if 1 'a 2'".data ∧
     Span.mk .number 5 6 ∈ apply_syntax_highlighting [] "# if 1 'a 2'".data ∧
     Span.mk .strLit 7 12 ∈ apply_syntax_highlighting [] "# if 1 'a 2'".data ∧
     Span.mk .number 10 11 ∈ apply_syntax_highlighting [] "# if 1 'a 2'".data) :=
  ⟨rfl, rfl, by decide, by decide, by decide, by decide, by decide⟩

/-- **C7, counterexample**: on the text `"3.x"` the highlighter's
number spans come from the source pattern `\b\d+\.?\d*\b` and are
`[(0, 2)]` (the span `"3."`), while the spec's pattern
`\b\d+(\.\d+)?\b` gives `[(0, 1)]` (the span `"3"`), so the number
span set is not the word-boundary match set of `\d+(\.\d+)?`. -/
theorem c7_number_pattern_counterexample :
    numberSpans "3.x".data = [(0, 2)] ∧
    specNumberSpans "3.x".data = [(0, 1)] ∧
    numberSpans "3.x".data ≠ specNumberSpans "3.x".data :=
  ⟨by decide, by decide, by decide⟩

/-- **C7, amended**: the highlighter's number spans are the
word-boundary matches of the source pattern `\d+\.?\d*`; these coincide
with the word-boundary matches of the spec's `\d+(\.\d+)?` on every
text containing no digit followed by a dot, optional digits and a
letter or underscore (on such texts, e.g. `"3.x"`, the source pattern
additionally consumes the dot). -/
theorem c7_number_spans_agree (t : List Char) (h : hasBadDot t = false) :
    numberSpans t = specNumberSpans t :=
  scanGo_congr (fun _ hl k => hasBadDot_drop hl k)
    (fun _ _ hcs => matchNumber_eq hcs) t.length 0 none t h

/-- Witness for `c7_number_spans_agree` at a concrete bad-dot-free
text. -/
theorem c7_number_spans_agree_witness :
    hasBadDot "a 1.25 b 3. 12".data = false ∧
    numberSpans "a 1.25 b 3. 12".data = specNumberSpans "a 1.25 b 3. 12".data :=
  ⟨by decide, c7_number_spans_agree "a 1.25 b 3. 12".data (by decide)⟩

/-! ## Claim theorems: tab registry -/

/-- Registry view of a document: identity and backing path. -/
def regView (d : Doc) : Nat × Option String :=
  (d.id, d.filePath)

/-- At most one open document per concrete file path. -/
def uniquePaths (docs : List Doc) : Prop :=
  (docs.map Doc.filePath).Pairwise (fun p q => p = none ∨ p ≠ q)

instance (docs : List Doc) : Decidable (uniquePaths docs) := by
  unfold uniquePaths
  infer_instance

lemma regView_updDoc (a : App) (w : Nat) (f : TextWidget → TextWidget) :
    (updDoc a w f).docs.map regView = a.docs.map regView := by
  simp only [updDoc, List.map_map]
  apply List.map_congr_left
  intro d _
  by_cases h : d.id = w <;> simp [h, regView]

lemma regView_editDoc (a : App) (w : Nat) (f : TextWidget → TextWidget) :
    (editDoc a w f).docs.map regView = a.docs.map regView := by
  simp only [editDoc, List.map_map]
  apply List.map_congr_left
  intro d _
  by_cases h : d.id = w <;> simp [h, regView]

lemma regView_clearMethod1 (e1 : Bool) (a : App) (w : Nat) :
    (clearMethod1 e1 a w).docs.map regView = a.docs.map regView := by
  unfold clearMethod1
  split
  · rfl
  · split
    · split
      · exact regView_editDoc a w _
      · rfl
    · rfl

lemma regView_clearMethod2 (e2 : Bool) (a : App) (w : Nat) :
    (clearMethod2 e2 a w).docs.map regView = a.docs.map regView := by
  unfold clearMethod2
  split
  · rfl
  · exact regView_editDoc a w _

lemma regView_clearMethod3 (e3 : Bool) (a : App) (w : Nat) :
    (clearMethod3 e3 a w).docs.map regView = a.docs.map regView := by
  unfold clearMethod3
  split
  · rfl
  · exact regView_updDoc a w _

lemma regView_clearErr (e1 e2 e3 : Bool) (a : App) (w : Nat) :
    (clearErr e1 e2 e3 a w).docs.map regView = a.docs.map regView := by
  unfold clearErr
  split
  · rfl
  · show (clearReset _).docs.map regView = _
    unfold clearReset
    simp only []
    rw [regView_clearMethod3, regView_clearMethod2, regView_clearMethod1]

lemma regView_clearAI (a : App) (w : Nat) :
    (clearAI a w).docs.map regView = a.docs.map regView :=
  regView_clearErr false false false a w

lemma regView_selectTab (a : App) (dst : Nat) :
    (selectTab a dst).docs.map regView = a.docs.map regView := by
  unfold selectTab
  by_cases h : a.active = some dst
  · simp [h]
  · simp only [h, if_false]
    cases a.active with
    | none => rfl
    | some oldW => exact regView_clearAI a oldW

lemma selectTab_active (a : App) (dst : Nat) :
    (selectTab a dst).active = some dst := by
  unfold selectTab
  by_cases h : a.active = some dst <;> simp [h]

/-- Paths of a document list, recoverable from the registry view. -/
lemma filePath_map_of_regView {l1 l2 : List Doc}
    (h : l1.map regView = l2.map regView) :
    l1.map Doc.filePath = l2.map Doc.filePath := by
  have h2 := congrArg (List.map Prod.snd) h
  simpa [List.map_map, regView, Function.comp] using h2

lemma id_map_of_regView {l1 l2 : List Doc}
    (h : l1.map regView = l2.map regView) :
    l1.map Doc.id = l2.map Doc.id := by
  have h2 := congrArg (List.map Prod.fst) h
  simpa [List.map_map, regView, Function.comp] using h2

/-- **C5**: `open_file` never creates a second document for an
already-registered path: when some registered document has the path,
the call only activates that document's tab (the registered identities
and paths are untouched), and for every call the at-most-one-document-
per-path invariant is preserved. -/
theorem c5_openOrFocus_no_duplicate (a : App) (path : String)
    (content : Option (List Char)) (d : Doc)
    (hfind : a.docs.find? (fun d' => d'.filePath = some path) = some d)
    (hu : uniquePaths a.docs) :
    (openFile a path content).docs.map regView = a.docs.map regView ∧
    (openFile a path content).active = some d.id ∧
    uniquePaths (openFile a path content).docs := by
  have hopen : openFile a path content = selectTab a d.id := by
    unfold openFile
    rw [hfind]
  refine ⟨?_, ?_, ?_⟩
  · rw [hopen]; exact regView_selectTab a d.id
  · rw [hopen]; exact selectTab_active a d.id
  · rw [hopen]
    unfold uniquePaths
    rw [filePath_map_of_regView (regView_selectTab a d.id)]
    exact hu

/-- `open_file` preserves path uniqueness also when the path is new
(the fresh tab's path was registered nowhere). -/
theorem openFile_uniquePaths (a : App) (path : String)
    (content : Option (List Char)) (hu : uniquePaths a.docs) :
    uniquePaths (openFile a path content).docs := by
  unfold openFile
  cases hfind : a.docs.find? (fun d' => d'.filePath = some path) with
  | some d =>
    unfold uniquePaths
    rw [filePath_map_of_regView (regView_selectTab a d.id)]
    exact hu
  | none =>
    cases content with
    | none => exact hu
    | some c =>
      have habsent : ∀ d' ∈ a.docs, ¬ (d'.filePath = some path) := by
        intro d' hmem hpath
        have := List.find?_eq_none.mp hfind d' hmem
        simp [hpath] at this
      unfold createEditorTab uniquePaths
      cases ha : a.active with
      | none =>
        simp only [List.map_append, List.map_cons, List.map_nil]
        rw [List.pairwise_append]
        refine ⟨hu, List.pairwise_singleton _ _, ?_⟩
        intro p hp q hq
        simp only [List.mem_singleton] at hq
        subst hq
        obtain ⟨d', hd', rfl⟩ := List.mem_map.mp hp
        exact Or.inr (fun hc => habsent d' hd' hc)
      | some oldW =>
        simp only [List.map_append, List.map_cons, List.map_nil]
        rw [List.pairwise_append]
        have hpaths := filePath_map_of_regView (regView_clearAI a oldW)
        refine ⟨by rw [hpaths]; exact hu, List.pairwise_singleton _ _, ?_⟩
        intro p hp q hq
        simp only [List.mem_singleton] at hq
        subst hq
        rw [hpaths] at hp
        obtain ⟨d', hd', rfl⟩ := List.mem_map.mp hp
        exact Or.inr (fun hc => habsent d' hd' hc)

/-- Witness for `c5_openOrFocus_no_duplicate`: opening `/tmp/x.py`
twice activates the first tab and registers nothing new. -/
theorem c5_openOrFocus_no_duplicate_witness :
    (let a := openFile (initApp true true) "/tmp/x.py" (some "hi".data)
     (openFile a "/tmp/x.py" (some "hi".data)).docs.map regView = a.docs.map regView ∧
     (openFile a "/tmp/x.py" (some "hi".data)).active = some 0 ∧
     uniquePaths (openFile a "/tmp/x.py" (some "hi".data)).docs) := by
  have h := c5_openOrFocus_no_duplicate
    (openFile (initApp true true) "/tmp/x.py" (some "hi".data)) "/tmp/x.py"
    (some "hi".data)
    { id := 0,
      tw := { buf := [('h', false), ('i', false)], cursor := 2,
              ustack := [.insE 0 "hi".data], lastMode := .ins },
      filePath := some "/tmp/x.py", title := "x.py", modified := false }
    (by decide) (by decide)
  exact ⟨h.1, h.2.1, h.2.2⟩

/-- **C8**: closing a modified document's tab consults the three-way
save/discard/cancel decision: Cancel leaves the whole application state
unchanged (the document stays registered, nothing is removed), while
Discard proceeds to remove exactly that tab. -/
theorem c8_close_modified_cancel_aborts (a : App) (idx : Nat) (d : Doc)
    (hget : a.docs.get? idx = some d) (hmod : d.modified = true) :
    closeTab a idx none = a ∧
    (closeTab a idx (some false)).docs = a.docs.eraseIdx idx := by
  have hlen : a.docs.length ≠ 0 := by
    intro h0
    rw [List.length_eq_zero] at h0
    rw [h0] at hget
    cases idx <;> simp at hget
  rw [List.get?_eq_getElem?] at hget
  constructor
  · unfold closeTab
    simp [hlen, hget, hmod]
  · unfold closeTab removeTab
    simp [hlen, hget, hmod]

/-- Witness for `c8_close_modified_cancel_aborts` on a one-document
application whose document is modified. -/
theorem c8_close_modified_cancel_aborts_witness :
    (let a : App :=
      { docs := [{ id := 0,
                   tw := { buf := [('h', false)], cursor := 1,
                           ustack := [.insE 0 ['h']], lastMode := .ins },
                   filePath := some "/tmp/x.py", title := "x.py",
                   modified := true }],
        active := some 0, nextId := 1, untitledCount := 0,
        aiSuggestion := [], aiWidget := none, aiStart := none,
        aiEnd := none, isAccepting := false, timer := none,
        aiAvailable := true, aiAutoSuggest := true, requests := [],
        statusLeft := "", writes := [] }
     closeTab a 0 none = a ∧ (closeTab a 0 (some false)).docs = a.docs.eraseIdx 0) :=
  c8_close_modified_cancel_aborts _ 0 _ rfl rfl

/-! ## Structural characterisations of `clear_ai_suggestion` -/

lemma clearMethod1_docsOnly (e1 : Bool) (a : App) (w : Nat) :
    clearMethod1 e1 a w = { a with docs := (clearMethod1 e1 a w).docs } := by
  unfold clearMethod1 editDoc
  split
  · rfl
  · split
    · split <;> rfl
    · rfl

lemma clearMethod2_docsOnly (e2 : Bool) (a : App) (w : Nat) :
    clearMethod2 e2 a w = { a with docs := (clearMethod2 e2 a w).docs } := by
  unfold clearMethod2 editDoc
  split <;> rfl

lemma clearMethod3_docsOnly (e3 : Bool) (a : App) (w : Nat) :
    clearMethod3 e3 a w = { a with docs := (clearMethod3 e3 a w).docs } := by
  unfold clearMethod3 updDoc
  split <;> rfl

/-- `clear_ai_suggestion` either returns the state unchanged (guard
fails) or changes only the documents of widget `w` and resets the four
tracking variables. -/
lemma clearErr_eta (e1 e2 e3 : Bool) (a : App) (w : Nat) :
    clearErr e1 e2 e3 a w =
      if a.aiSuggestion = [] ∨ a.aiWidget ≠ some w then a
      else { a with docs := (clearErr e1 e2 e3 a w).docs,
                    aiSuggestion := [], aiWidget := none,
                    aiStart := none, aiEnd := none } := by
  unfold clearErr
  split
  · rfl
  · unfold clearReset
    rw [clearMethod3_docsOnly, clearMethod2_docsOnly, clearMethod1_docsOnly]

/-! ## Claim theorems: clear robustness (C9) -/

/-- **C9**: `clear_ai_suggestion(w)` changes nothing when the tracked
suggestion does not belong to `w` (or none exists); otherwise, whatever
combination of the three removal methods raises, the `finally` block
resets all four tracking variables, and a repeated call (with any
error behaviour) is a no-op. -/
theorem c9_clear_reset_robust (a : App) (w : Nat)
    (e1 e2 e3 e1' e2' e3' : Bool) :
    (a.aiSuggestion = [] ∨ a.aiWidget ≠ some w → clearErr e1 e2 e3 a w = a) ∧
    (¬(a.aiSuggestion = [] ∨ a.aiWidget ≠ some w) →
      (clearErr e1 e2 e3 a w).aiSuggestion = [] ∧
      (clearErr e1 e2 e3 a w).aiWidget = none ∧
      (clearErr e1 e2 e3 a w).aiStart = none ∧
      (clearErr e1 e2 e3 a w).aiEnd = none) ∧
    clearErr e1' e2' e3' (clearErr e1 e2 e3 a w) w = clearErr e1 e2 e3 a w := by
  refine ⟨?_, ?_, ?_⟩
  · intro hg
    unfold clearErr
    rw [if_pos hg]
  · intro hg
    rw [clearErr_eta e1 e2 e3 a w, if_neg hg]
    exact ⟨rfl, rfl, rfl, rfl⟩
  · by_cases hg : a.aiSuggestion = [] ∨ a.aiWidget ≠ some w
    · have h1 : clearErr e1 e2 e3 a w = a := by
        unfold clearErr; rw [if_pos hg]
      rw [h1]
      unfold clearErr; rw [if_pos hg]
    · have h1 : (clearErr e1 e2 e3 a w).aiSuggestion = [] := by
        rw [clearErr_eta e1 e2 e3 a w, if_neg hg]
      conv_lhs => rw [clearErr]
      rw [if_pos (Or.inl h1)]

/-- Concrete application state with a ghost suggestion displayed in
widget 0 over the whitespace-only buffer `" "` (anchor 1), debounce
timer armed. -/
def ghostApp : App :=
  { docs := [{ id := 0,
               tw := { buf := [(' ', false), ('g', true), ('h', true)], cursor := 1,
                       ustack := [.sep, .insE 1 ['g', 'h'], .sep, .insE 0 [' ']],
                       lastMode := .other },
               filePath := none, title := "Untitled-1", modified := true }],
    active := some 0, nextId := 1, untitledCount := 1,
    aiSuggestion := ['g', 'h'], aiWidget := some 0, aiStart := some 1,
    aiEnd := some 3, isAccepting := false, timer := some 0,
    aiAvailable := true, aiAutoSuggest := true, requests := [0],
    statusLeft := "✨ AI: Tab to accept • Esc to reject", writes := [] }

/-- Witness for `c9_clear_reset_robust`: at `ghostApp` the guard
holds, every error combination still resets the variables, and the
second call is a no-op. -/
theorem c9_clear_reset_robust_witness :
    ((clearErr true true true ghostApp 0).aiSuggestion = [] ∧
     (clearErr true true true ghostApp 0).aiWidget = none ∧
     (clearErr true true true ghostApp 0).aiStart = none ∧
     (clearErr true true true ghostApp 0).aiEnd = none) ∧
    clearErr false false false (clearErr true true true ghostApp 0) 0 =
      clearErr true true true ghostApp 0 :=
  ⟨(c9_clear_reset_robust ghostApp 0 true true true false false false).2.1
      (by decide),
   (c9_clear_reset_robust ghostApp 0 true true true false false false).2.2⟩

/-! ## Claim theorems: empty-line debounce firing (C10) -/

/-- The event trace behind the C10 counterexample: open an untitled
tab, type `x` (debounce arms), let the timer fire (a completion request
for the non-empty line `"x"` goes out), press Return and Space (both
qualifying keystrokes, re-arming the timer), then the in-flight
completion `"gho"` is delivered and displayed as ghost text at the
cursor on the whitespace-only second line. -/
def c10Trace : List Ev :=
  [.newE,
   .keyPressE (.printable 'x'), .classEditE (.printable 'x'),
   .keyReleaseE (.printable 'x'),
   .timerE,
   .keyPressE .returnKey, .classEditE .returnKey, .keyReleaseE .returnKey,
   .keyPressE (.printable ' '), .classEditE (.printable ' '),
   .keyReleaseE (.printable ' '),
   .deliverE 0 "gho".data]

/-- The application state at the moment the re-armed debounce timer is
about to fire: ghost `"gho"` displayed, the cursor's real line is the
whitespace-only `" "`. -/
def c10Pre : App :=
  runEvents (initApp true true) c10Trace

/-- **C10, counterexample**: a reachable debounce-timer firing on a
whitespace-only current line that does change the buffer and the
suggestion state: the ghost suggestion displayed in the widget is
cleared by the unconditional `clear_ai_suggestion` at the top of
`request_ai_suggestion` before the empty-line early return. -/
theorem c10_empty_line_counterexample :
    (currentLineOf (clearAI c10Pre 0) 0).map pyStrip = some [] ∧
    c10Pre.timer = some 0 ∧
    (getDoc (timerFire c10Pre) 0).map (fun d => bufChars d.tw) ≠
      (getDoc c10Pre 0).map (fun d => bufChars d.tw) ∧
    (timerFire c10Pre).aiSuggestion ≠ c10Pre.aiSuggestion ∧
    (timerFire c10Pre).requests = c10Pre.requests ∧
    (timerFire c10Pre).statusLeft = c10Pre.statusLeft :=
  ⟨by decide, by decide, by decide, by decide, by decide, by decide⟩

/-- **C10, amended**: when the debounce timer fires with the cursor's
line empty or whitespace-only (as `request_ai_suggestion` computes it,
after its unconditional initial clear), no completion request is
issued and no loading status is shown — the call returns before
contacting the completion client — but the state is that of
`clear_ai_suggestion`: buffer and suggestion state are unchanged
exactly when no ghost suggestion was displayed in the widget. -/
theorem c10_empty_line_no_request (a : App) (w : Nat)
    (h : (currentLineOf (clearAI a w) w).map pyStrip = some []) :
    requestAISuggestion a w = clearAI a w ∧
    (requestAISuggestion a w).requests = a.requests ∧
    (requestAISuggestion a w).statusLeft = a.statusLeft := by
  have hmain : requestAISuggestion a w = clearAI a w := by
    unfold requestAISuggestion
    cases hd : getDoc (clearAI a w) w with
    | none =>
      exfalso
      unfold currentLineOf at h
      rw [hd] at h
      simp at h
    | some d =>
      cases hl : currentLineOf (clearAI a w) w with
      | none =>
        exfalso
        unfold currentLineOf at hl
        rw [hd] at hl
        simp at hl
      | some line =>
        rw [hl] at h
        have h' : pyStrip line = [] := by simpa using h
        simp [hd, hl, h']
  refine ⟨hmain, ?_, ?_⟩
  · rw [hmain]
    have := clearErr_eta false false false a w
    rw [show clearAI a w = clearErr false false false a w from rfl, this]
    split <;> rfl
  · rw [hmain]
    have := clearErr_eta false false false a w
    rw [show clearAI a w = clearErr false false false a w from rfl, this]
    split <;> rfl

/-- Witness for `c10_empty_line_no_request` at the concrete state
`ghostApp`. -/
theorem c10_empty_line_no_request_witness :
    requestAISuggestion ghostApp 0 = clearAI ghostApp 0 ∧
    (requestAISuggestion ghostApp 0).requests = ghostApp.requests ∧
    (requestAISuggestion ghostApp 0).statusLeft = ghostApp.statusLeft :=
  c10_empty_line_no_request ghostApp 0 (by decide)

/-! ## Claim theorems: accepting and rejecting a displayed ghost (C3, C4)

The displaying state is characterised by running `show_ai_suggestion`
on an idle one-document editor with pre-overlay content `T` and the
cursor at offset `p`. -/

/-- Idle editor: one tab whose widget was created by
`create_editor_tab` with content `T`, with the cursor then placed at
offset `p`, no suggestion tracked. -/
def mkIdle (T : List Char) (p : Nat) : App :=
  { docs := [{ id := 0,
               tw := { (twInsert { buf := [], cursor := 0, ustack := [],
                                   lastMode := .other } 0 T false) with cursor := p },
               filePath := none, title := "t", modified := false }],
    active := some 0, nextId := 1, untitledCount := 0,
    aiSuggestion := [], aiWidget := none, aiStart := none, aiEnd := none,
    isAccepting := false, timer := none, aiAvailable := true,
    aiAutoSuggest := true, requests := [], statusLeft := "", writes := [] }

/-- The undo stack after `show_ai_suggestion` on `mkIdle T p`:
separator, ghost insertion, and (below) the initial content
insertion. -/
def stackAfterShow (T : List Char) (p : Nat) (sugg : List Char) : List UEntry :=
  .sep :: .insE p sugg :: (if T = [] then [] else [.sep, .insE 0 T])

/-- The application state displaying ghost `sugg` at anchor `p` over
pre-overlay content `T`. -/
def displayingApp (T : List Char) (p : Nat) (sugg : List Char) : App :=
  { docs := [{ id := 0,
               tw := { buf := (T.map (fun c => (c, false))).take p ++
                              sugg.map (fun c => (c, true)) ++
                              (T.map (fun c => (c, false))).drop p,
                       cursor := p,
                       ustack := stackAfterShow T p sugg,
                       lastMode := .other },
               filePath := none, title := "t", modified := true }],
    active := some 0, nextId := 1, untitledCount := 0,
    aiSuggestion := sugg, aiWidget := some 0, aiStart := some p,
    aiEnd := some (p + sugg.length), isAccepting := false, timer := none,
    aiAvailable := true, aiAutoSuggest := true, requests := [],
    statusLeft := "✨ AI: Tab to accept • Esc to reject", writes := [] }

/-! ### Proofs for C3 and C4 -/


lemma cleanSuggestion_strip_ne {raw : List Char} (hs : cleanSuggestion raw ≠ []) :
    pyStrip raw ≠ [] := by
  intro h0
  apply hs
  simp [cleanSuggestion, h0]

lemma cleanSuggestion_raw_ne {raw : List Char} (hs : cleanSuggestion raw ≠ []) :
    raw ≠ [] := by
  intro h0
  exact cleanSuggestion_strip_ne hs (by rw [h0]; rfl)

lemma show_mkIdle_eq (T : List Char) (p : Nat) (raw : List Char)
    (hs : cleanSuggestion raw ≠ []) :
    showAISuggestion (mkIdle T p) 0 raw = displayingApp T p (cleanSuggestion raw) := by
  have hstrip : pyStrip raw ≠ [] := cleanSuggestion_strip_ne hs
  have hraw : raw ≠ [] := cleanSuggestion_raw_ne hs
  by_cases hT : T = []
  · subst hT
    simp [showAISuggestion, mkIdle, currentTabInfo, getDoc, clearAI, clearErr,
      updDoc, editDoc, twEditSeparator, twInsert, pushEdit, pushSep,
      displayingApp, stackAfterShow, hraw, hstrip, hs]
  · have hneq : List.take p (T.map (fun c => (c, false))) ++
        ((cleanSuggestion raw).map (fun c => (c, true)) ++
          List.drop p (T.map (fun c => (c, false)))) ≠
        T.map (fun c => (c, false)) := by
      intro h
      have hlen := congrArg List.length h
      have hns : (cleanSuggestion raw).length ≠ 0 := by
        simpa [List.length_eq_zero] using hs
      simp [List.length_take, List.length_drop] at hlen
      omega
    simp [showAISuggestion, mkIdle, currentTabInfo, getDoc, clearAI, clearErr,
      updDoc, editDoc, twEditSeparator, twInsert, pushEdit, pushSep,
      displayingApp, stackAfterShow, hraw, hstrip, hs, hT, hneq]

def acceptedApp (T : List Char) (p : Nat) (sugg : List Char) : App :=
  { docs := [{ id := 0,
               tw := { buf := (T.map (fun c => (c, false))).take p ++
                              sugg.map (fun c => (c, false)) ++
                              (T.map (fun c => (c, false))).drop p,
                       cursor := p + sugg.length,
                       ustack := .insE p sugg :: .sep :: .delE p sugg ::
                                 stackAfterShow T p sugg,
                       lastMode := .ins },
               filePath := none, title := "t", modified := true }],
    active := some 0, nextId := 1, untitledCount := 0,
    aiSuggestion := [], aiWidget := none, aiStart := none, aiEnd := none,
    isAccepting := false, timer := none, aiAvailable := true,
    aiAutoSuggest := true, requests := [], statusLeft := "AI: Suggestion accepted",
    writes := [] }

-- concrete validation

lemma taggedRanges_go_untagged (l : List Char) : ∀ ofs,
    taggedRanges.go ofs none (l.map (fun c => (c, false))) = [] := by
  induction l with
  | nil => intro ofs; rfl
  | cons c rest ih => intro ofs; simpa [taggedRanges.go] using ih (ofs + 1)

lemma taggedRanges_untagged (l : List Char) :
    taggedRanges (l.map (fun c => (c, false))) = [] :=
  taggedRanges_go_untagged l 0

lemma map_fst_untag (l : List Char) :
    l.map (Prod.fst ∘ fun c => (c, false)) = l := by
  induction l with
  | nil => rfl
  | cons c rest ih => simpa using ih

lemma map_fst_tag (l : List Char) :
    l.map (Prod.fst ∘ fun c => (c, true)) = l := by
  induction l with
  | nil => rfl
  | cons c rest ih => simpa using ih

lemma map_untag_untag (l : List Char) :
    l.map ((fun cb : Char × Bool => (cb.1, false)) ∘ fun c => (c, false)) =
      l.map (fun c => (c, false)) := rfl

lemma accept_displaying (T : List Char) (p : Nat) (sugg : List Char)
    (hp : p ≤ T.length) (hsugg : sugg ≠ []) :
    acceptAISuggestion (displayingApp T p sugg) 0 = acceptedApp T p sugg := by
  obtain ⟨s0, stail, rfl⟩ : ∃ c l, sugg = c :: l := by
    cases sugg with
    | nil => exact absurd rfl hsugg
    | cons c l => exact ⟨c, l, rfl⟩
  have hXlen : ((T.map (fun c => (c, false))).take p).length = p := by simp [hp]
  have hTlen : (T.map (fun c => (c, false))).length = T.length := by simp
  have hget2 : ((T.map (fun c => (c, false))).take p ++ (s0, true) ::
      (stail.map (fun c => (c, true)) ++ (T.map (fun c => (c, false))).drop p))[p]? =
      some (s0, true) := by
    rw [List.getElem?_append_right (by omega)]
    simp [hXlen]
  have htake2 : List.take p ((T.map (fun c => (c, false))).take p ++ (s0, true) ::
      (stail.map (fun c => (c, true)) ++ (T.map (fun c => (c, false))).drop p)) =
      (T.map (fun c => (c, false))).take p := by
    exact List.take_left' hXlen
  have hdropq2 : List.drop (p + (stail.length + 1))
      ((T.map (fun c => (c, false))).take p ++ (s0, true) ::
        (stail.map (fun c => (c, true)) ++ (T.map (fun c => (c, false))).drop p)) =
      (T.map (fun c => (c, false))).drop p := by
    rw [show (T.map (fun c => (c, false))).take p ++ (s0, true) ::
        (stail.map (fun c => (c, true)) ++ (T.map (fun c => (c, false))).drop p) =
        ((T.map (fun c => (c, false))).take p ++ (s0, true) ::
          stail.map (fun c => (c, true))) ++ (T.map (fun c => (c, false))).drop p by
      simp]
    exact List.drop_left' (by simp [hXlen])
  have hbuflen2 : ((T.map (fun c => (c, false))).take p ++ (s0, true) ::
      (stail.map (fun c => (c, true)) ++ (T.map (fun c => (c, false))).drop p)).length =
      T.length + (stail.length + 1) := by
    simp [hXlen]
    omega
  have hremoved : List.take (stail.length + 1) (List.drop p
      (List.take p T ++ s0 :: (stail ++ List.drop p T))) = s0 :: stail := by
    have h1 : List.drop p (List.take p T ++ s0 :: (stail ++ List.drop p T)) =
        s0 :: (stail ++ List.drop p T) :=
      List.drop_left' (by simp [hp])
    rw [h1, List.take_succ_cons, List.take_left]
  have hq : min (p + (stail.length + 1)) (T.length + (stail.length + 1)) =
      p + (stail.length + 1) := by omega
  have hplt : p < T.length + (stail.length + 1) := by omega
  have hnle : ¬(T.length + (stail.length + 1) ≤ p) := by omega
  simp [acceptAISuggestion, displayingApp, clearAI, clearErr, clearMethod1,
    clearMethod2, clearMethod3, clearReset, tagAt, getDoc, currentTabInfo,
    editDoc, updDoc, twDelete, twInsert, twEditSeparator, pushEdit, pushSep,
    acceptedApp, stackAfterShow, hget2, htake2, hdropq2, hbuflen2, hremoved,
    hq, hplt, hnle, map_fst_untag, map_fst_tag, map_untag_untag,
    taggedRanges_untagged]

def clearedApp (T : List Char) (p : Nat) (sugg : List Char) : App :=
  { docs := [{ id := 0,
               tw := { buf := T.map (fun c => (c, false)), cursor := p,
                       ustack := .delE p sugg :: stackAfterShow T p sugg,
                       lastMode := .del },
               filePath := none, title := "t", modified := true }],
    active := some 0, nextId := 1, untitledCount := 0,
    aiSuggestion := [], aiWidget := none, aiStart := none, aiEnd := none,
    isAccepting := false, timer := none, aiAvailable := true,
    aiAutoSuggest := true, requests := [],
    statusLeft := "✨ AI: Tab to accept • Esc to reject", writes := [] }


lemma clear_displaying (T : List Char) (p : Nat) (sugg : List Char)
    (hp : p ≤ T.length) (hsugg : sugg ≠ []) :
    clearAI (displayingApp T p sugg) 0 = clearedApp T p sugg := by
  obtain ⟨s0, stail, rfl⟩ : ∃ c l, sugg = c :: l := by
    cases sugg with
    | nil => exact absurd rfl hsugg
    | cons c l => exact ⟨c, l, rfl⟩
  have hXlen : ((T.map (fun c => (c, false))).take p).length = p := by simp [hp]
  have hget2 : ((T.map (fun c => (c, false))).take p ++ (s0, true) ::
      (stail.map (fun c => (c, true)) ++ (T.map (fun c => (c, false))).drop p))[p]? =
      some (s0, true) := by
    rw [List.getElem?_append_right (by omega)]
    simp [hXlen]
  have htake2 : List.take p ((T.map (fun c => (c, false))).take p ++ (s0, true) ::
      (stail.map (fun c => (c, true)) ++ (T.map (fun c => (c, false))).drop p)) =
      (T.map (fun c => (c, false))).take p := by
    exact List.take_left' hXlen
  have hdropq2 : List.drop (p + (stail.length + 1))
      ((T.map (fun c => (c, false))).take p ++ (s0, true) ::
        (stail.map (fun c => (c, true)) ++ (T.map (fun c => (c, false))).drop p)) =
      (T.map (fun c => (c, false))).drop p := by
    rw [show (T.map (fun c => (c, false))).take p ++ (s0, true) ::
        (stail.map (fun c => (c, true)) ++ (T.map (fun c => (c, false))).drop p) =
        ((T.map (fun c => (c, false))).take p ++ (s0, true) ::
          stail.map (fun c => (c, true))) ++ (T.map (fun c => (c, false))).drop p by
      simp]
    exact List.drop_left' (by simp [hXlen])
  have hbuflen2 : ((T.map (fun c => (c, false))).take p ++ (s0, true) ::
      (stail.map (fun c => (c, true)) ++ (T.map (fun c => (c, false))).drop p)).length =
      T.length + (stail.length + 1) := by
    simp [hXlen]
    omega
  have hremoved : List.take (stail.length + 1) (List.drop p
      (List.take p T ++ s0 :: (stail ++ List.drop p T))) = s0 :: stail := by
    have h1 : List.drop p (List.take p T ++ s0 :: (stail ++ List.drop p T)) =
        s0 :: (stail ++ List.drop p T) :=
      List.drop_left' (by simp [hp])
    rw [h1, List.take_succ_cons, List.take_left]
  have hq : (p + (stail.length + 1)) ⊓ (T.length + (stail.length + 1)) =
      p + (stail.length + 1) := by omega
  have hplt : p < T.length + (stail.length + 1) := by omega
  have hnle : ¬(T.length + (stail.length + 1) ≤ p) := by omega
  simp [clearAI, clearErr, clearMethod1, clearMethod2, clearMethod3, clearReset,
    tagAt, getDoc, currentTabInfo, editDoc, updDoc, twDelete, pushEdit, pushSep,
    displayingApp,
    clearedApp, stackAfterShow, hget2, htake2, hdropq2, hbuflen2, hremoved,
    hq, hplt, hnle, map_fst_untag, map_fst_tag, map_untag_untag,
    taggedRanges_untagged]

lemma hasGhost_untag (l : List Char) :
    hasGhost (l.map (fun c => (c, false))) = false := by
  simp [hasGhost]

theorem c3_accept_commits (T : List Char) (p : Nat) (raw : List Char)
    (hp : p ≤ T.length) (hs : cleanSuggestion raw ≠ []) :
    (getDoc (acceptAISuggestion (showAISuggestion (mkIdle T p) 0 raw) 0) 0).map
        (fun d => (bufChars d.tw, hasGhost d.tw.buf, d.tw.cursor,
                   bufChars (twUndo d.tw))) =
      some (T.take p ++ cleanSuggestion raw ++ T.drop p, false,
            p + (cleanSuggestion raw).length, T) := by
  rw [show_mkIdle_eq T p raw hs, accept_displaying T p _ hp hs]
  obtain ⟨s0, stail, hsl⟩ : ∃ c l, cleanSuggestion raw = c :: l := by
    cases hcl : cleanSuggestion raw with
    | nil => exact absurd hcl hs
    | cons c l => exact ⟨c, l, rfl⟩
  rw [hsl]
  have hXlen : ((T.map (fun c => (c, false))).take p).length = p := by simp [hp]
  have htakeU : List.take p ((T.map (fun c => (c, false))).take p ++ (s0, false) ::
      (stail.map (fun c => (c, false)) ++ (T.map (fun c => (c, false))).drop p)) =
      (T.map (fun c => (c, false))).take p :=
    List.take_left' hXlen
  have hdropU : List.drop (p + (stail.length + 1))
      ((T.map (fun c => (c, false))).take p ++ (s0, false) ::
        (stail.map (fun c => (c, false)) ++ (T.map (fun c => (c, false))).drop p)) =
      (T.map (fun c => (c, false))).drop p := by
    rw [show (T.map (fun c => (c, false))).take p ++ (s0, false) ::
        (stail.map (fun c => (c, false)) ++ (T.map (fun c => (c, false))).drop p) =
        ((T.map (fun c => (c, false))).take p ++ (s0, false) ::
          stail.map (fun c => (c, false))) ++ (T.map (fun c => (c, false))).drop p by
      simp]
    exact List.drop_left' (by simp [hXlen])
  simp [acceptedApp, getDoc, bufChars, twUndo, twUndo.go, revertEntry,
    stackAfterShow, htakeU, hdropU, hasGhost, hasGhost_untag,
    List.map_take, List.map_drop, map_fst_untag, map_fst_tag]
  refine ⟨fun a ha => ?_, fun a ha => ?_⟩
  · have hmem := List.mem_of_mem_take ha
    simp at hmem
  · have hmem := List.mem_of_mem_drop ha
    simp at hmem

lemma dA_sugg (T : List Char) (p : Nat) (s : List Char) :
    (displayingApp T p s).aiSuggestion = s := rfl
lemma dA_widget (T : List Char) (p : Nat) (s : List Char) :
    (displayingApp T p s).aiWidget = some 0 := rfl
lemma dA_accepting (T : List Char) (p : Nat) (s : List Char) :
    (displayingApp T p s).isAccepting = false := rfl
lemma dA_active (T : List Char) (p : Nat) (s : List Char) :
    (displayingApp T p s).active = some 0 := rfl
lemma dA_curTab (T : List Char) (p : Nat) (s : List Char) :
    currentTabInfo (displayingApp T p s) =
      some { id := 0,
             tw := { buf := (T.map (fun c => (c, false))).take p ++
                            s.map (fun c => (c, true)) ++
                            (T.map (fun c => (c, false))).drop p,
                     cursor := p, ustack := stackAfterShow T p s,
                     lastMode := .other },
             filePath := none, title := "t", modified := true } := rfl

theorem c4_reject_restores (T : List Char) (p : Nat) (raw : List Char)
    (c : Char) (dst : Nat)
    (hp : p ≤ T.length) (hs : cleanSuggestion raw ≠ []) (hdst : dst ≠ 0) :
    (getDoc (rejectAISuggestion (showAISuggestion (mkIdle T p) 0 raw) 0) 0).map
        (fun d => (bufChars d.tw, taggedRanges d.tw.buf)) = some (T, []) ∧
    (getDoc (clearAI (showAISuggestion (mkIdle T p) 0 raw) 0) 0).map
        (fun d => (bufChars d.tw, taggedRanges d.tw.buf)) = some (T, []) ∧
    (getDoc (onMouseClick (showAISuggestion (mkIdle T p) 0 raw) 0) 0).map
        (fun d => (bufChars d.tw, taggedRanges d.tw.buf)) = some (T, []) ∧
    (getDoc (onKeyPressClearGhost (showAISuggestion (mkIdle T p) 0 raw)
        (.printable c) 0) 0).map
        (fun d => (bufChars d.tw, taggedRanges d.tw.buf)) = some (T, []) ∧
    (getDoc (saveCurrentTab (showAISuggestion (mkIdle T p) 0 raw)) 0).map
        (fun d => (bufChars d.tw, taggedRanges d.tw.buf)) = some (T, []) ∧
    (getDoc (runCode (showAISuggestion (mkIdle T p) 0 raw)) 0).map
        (fun d => (bufChars d.tw, taggedRanges d.tw.buf)) = some (T, []) ∧
    (getDoc (selectTab (showAISuggestion (mkIdle T p) 0 raw) dst) 0).map
        (fun d => (bufChars d.tw, taggedRanges d.tw.buf)) = some (T, []) := by
  rw [show_mkIdle_eq T p raw hs]
  have hcd := clear_displaying T p (cleanSuggestion raw) hp hs
  refine ⟨?_, ?_, ?_, ?_, ?_, ?_, ?_⟩
  · simp [rejectAISuggestion, dA_sugg, dA_widget, hs, hcd, clearedApp, getDoc,
      bufChars, map_fst_untag, taggedRanges_untagged]
  · simp [hcd, clearedApp, getDoc, bufChars, map_fst_untag, taggedRanges_untagged]
  · simp [onMouseClick, dA_sugg, dA_widget, hs, hcd, clearedApp, getDoc,
      bufChars, map_fst_untag, taggedRanges_untagged]
  · simp [onKeyPressClearGhost, dA_sugg, dA_widget, dA_accepting, hs, hcd,
      clearedApp, getDoc, bufChars, map_fst_untag, taggedRanges_untagged]
  · simp [saveCurrentTab, dA_curTab, hcd, clearedApp, getDoc,
      bufChars, map_fst_untag, taggedRanges_untagged]
  · simp [runCode, dA_curTab, hcd, clearedApp, getDoc,
      bufChars, map_fst_untag, taggedRanges_untagged]
  · simp [selectTab, dA_active, hcd, clearedApp, getDoc,
      bufChars, map_fst_untag, taggedRanges_untagged, hdst,
      (Ne.symm hdst : (0 : Nat) ≠ dst)]

/-- Witness for `c3_accept_commits` at `T = "ab"`, anchor 1, raw
completion `" xy "`. -/
theorem c3_accept_commits_witness :
    (getDoc (acceptAISuggestion (showAISuggestion (mkIdle "ab".data 1) 0
        " xy ".data) 0) 0).map
        (fun d => (bufChars d.tw, hasGhost d.tw.buf, d.tw.cursor,
                   bufChars (twUndo d.tw))) =
      some ("ab".data.take 1 ++ cleanSuggestion " xy ".data ++ "ab".data.drop 1,
            false, 1 + (cleanSuggestion " xy ".data).length, "ab".data) :=
  c3_accept_commits "ab".data 1 " xy ".data (by decide) (by decide)

/-- Witness for `c4_reject_restores` at `T = "ab"`, anchor 1, raw
completion `" xy "`, keystroke `z`, tab switch to widget 1. -/
theorem c4_reject_restores_witness :
    (getDoc (rejectAISuggestion (showAISuggestion (mkIdle "ab".data 1) 0
        " xy ".data) 0) 0).map
        (fun d => (bufChars d.tw, taggedRanges d.tw.buf)) =
      some ("ab".data, []) ∧
    (getDoc (selectTab (showAISuggestion (mkIdle "ab".data 1) 0
        " xy ".data) 1) 0).map
        (fun d => (bufChars d.tw, taggedRanges d.tw.buf)) =
      some ("ab".data, []) :=
  ⟨(c4_reject_restores "ab".data 1 " xy ".data 'z' 1 (by decide) (by decide)
      (by decide)).1,
   (c4_reject_restores "ab".data 1 " xy ".data 'z' 1 (by decide) (by decide)
      (by decide)).2.2.2.2.2.2⟩

/-! ## The global ghost invariant (C1)

The inductive invariant: document identities are distinct and below
the id source, and any document displaying ghost-tagged text is both
the tracked `ai_suggestion_widget` and the active tab, with a
non-empty tracked suggestion. -/

def idsOk (a : App) : Prop :=
  (a.docs.map Doc.id).Nodup ∧ ∀ d ∈ a.docs, d.id < a.nextId

def ghostOk (a : App) : Prop :=
  ∀ d ∈ a.docs, hasGhost d.tw.buf = true →
    a.aiWidget = some d.id ∧ a.active = some d.id ∧ a.aiSuggestion ≠ []

def Inv (a : App) : Prop :=
  idsOk a ∧ ghostOk a

/-- The element found by `get_current_tab_info` is the active tab. -/
lemma currentTab_id {a : App} {cur : Doc}
    (h : currentTabInfo a = some cur) : a.active = some cur.id := by
  unfold currentTabInfo at h
  cases hact : a.active with
  | none => rw [hact] at h; cases h
  | some v =>
    rw [hact] at h
    simp only [Option.bind] at h
    have := List.find?_some h
    simp at this
    rw [this]

/-- `updDoc`/`editDoc` change only the targeted widget's `tw` (and
modified flag); ids are fixed. -/
lemma mem_updDoc {a : App} {w : Nat} {f : TextWidget → TextWidget} {d' : Doc}
    (h : d' ∈ (updDoc a w f).docs) :
    ∃ d ∈ a.docs, d' = if d.id = w then { d with tw := f d.tw } else d := by
  obtain ⟨d, hd, rfl⟩ := List.mem_map.mp h
  exact ⟨d, hd, rfl⟩

lemma mem_editDoc {a : App} {w : Nat} {f : TextWidget → TextWidget} {d' : Doc}
    (h : d' ∈ (editDoc a w f).docs) :
    ∃ d ∈ a.docs, (d.id = w ∧ d'.id = w ∧ d'.tw = f d.tw) ∨ (d.id ≠ w ∧ d' = d) := by
  obtain ⟨d, hd, rfl⟩ := List.mem_map.mp h
  refine ⟨d, hd, ?_⟩
  by_cases hid : d.id = w
  · left; simp [hid]
  · right; simp [hid]

lemma mem_updDoc' {a : App} {w : Nat} {f : TextWidget → TextWidget} {d' : Doc}
    (h : d' ∈ (updDoc a w f).docs) :
    ∃ d ∈ a.docs, (d.id = w ∧ d'.id = w ∧ d'.tw = f d.tw) ∨ (d.id ≠ w ∧ d' = d) := by
  obtain ⟨d, hd, rfl⟩ := List.mem_map.mp h
  refine ⟨d, hd, ?_⟩
  by_cases hid : d.id = w
  · left; simp [hid]
  · right; simp [hid]

/-- Ghost transfer through `clear_ai_suggestion`: a document that
displays a ghost after the clear is an untouched document (id other
than `w`) that already displayed it, and the guard passed only if the
tracked state pointed at `w`. -/
lemma clearAI_ghost {a : App} {w : Nat} {d' : Doc}
    (hmem : d' ∈ (clearAI a w).docs) (hg : hasGhost d'.tw.buf = true) :
    ((a.aiSuggestion = [] ∨ a.aiWidget ≠ some w) ∧ clearAI a w = a ∧ d' ∈ a.docs) ∨
    (a.aiWidget = some w ∧ a.aiSuggestion ≠ [] ∧ d'.id ≠ w ∧ d' ∈ a.docs) := by
  by_cases hguard : a.aiSuggestion = [] ∨ a.aiWidget ≠ some w
  · left
    have he : clearAI a w = a := by
      unfold clearAI clearErr
      rw [if_pos hguard]
    rw [he] at hmem
    exact ⟨hguard, he, hmem⟩
  · right
    push_neg at hguard
    obtain ⟨hsugg, hwid⟩ := hguard
    refine ⟨hwid, hsugg, ?_⟩
    -- peel the clear: reset ∘ M3 ∘ M2 ∘ M1
    have hdocs : (clearAI a w).docs =
        (clearMethod3 false (clearMethod2 false (clearMethod1 false a w) w) w).docs := by
      unfold clearAI clearErr
      rw [if_neg (by push_neg; exact ⟨hsugg, hwid⟩)]
      rfl
    rw [hdocs] at hmem
    -- Method 3 untags everything in w, so a ghost doc has id ≠ w
    unfold clearMethod3 at hmem
    rw [if_neg (by simp)] at hmem
    obtain ⟨d2, hd2, hcase3⟩ := mem_updDoc' hmem
    rcases hcase3 with ⟨_, _, htw⟩ | ⟨hid2, heq2⟩
    · exfalso
      rw [htw] at hg
      simp [hasGhost] at hg
    · subst heq2
      refine ⟨hid2, ?_⟩
      -- back through Method 2
      unfold clearMethod2 at hd2
      rw [if_neg (by simp)] at hd2
      obtain ⟨d1, hd1, hcase2⟩ := mem_editDoc hd2
      rcases hcase2 with ⟨_, hidw, _⟩ | ⟨_, heq1⟩
      · exact absurd hidw hid2
      · subst heq1
        -- back through Method 1
        unfold clearMethod1 at hd1
        rw [if_neg (by simp)] at hd1
        rcases hs : a.aiStart with _ | s
        · rw [hs] at hd1; exact hd1
        · rcases he : a.aiEnd with _ | e
          · rw [hs, he] at hd1; exact hd1
          · rw [hs, he] at hd1
            dsimp only at hd1
            by_cases ht : tagAt a w s
            · rw [if_pos ht] at hd1
              obtain ⟨d0, hd0, hcase1⟩ := mem_editDoc hd1
              rcases hcase1 with ⟨_, hidw, _⟩ | ⟨_, heq0⟩
              · exact absurd hidw hid2
              · subst heq0; exact hd0
            · rw [if_neg ht] at hd1; exact hd1

/-- Non-docs fields of `clear_ai_suggestion` other than the four
tracking variables are untouched. -/
lemma clearErr_active (e1 e2 e3 : Bool) (a : App) (w : Nat) :
    (clearErr e1 e2 e3 a w).active = a.active := by
  rw [clearErr_eta]; split <;> rfl

lemma clearErr_nextId (e1 e2 e3 : Bool) (a : App) (w : Nat) :
    (clearErr e1 e2 e3 a w).nextId = a.nextId := by
  rw [clearErr_eta]; split <;> rfl

lemma lt_next_of_map_eq {l1 l2 : List Doc} {n : Nat}
    (h : l1.map Doc.id = l2.map Doc.id) (hb : ∀ d ∈ l2, d.id < n) :
    ∀ d ∈ l1, d.id < n := by
  intro d hd
  have hmem : d.id ∈ l2.map Doc.id := h ▸ List.mem_map_of_mem Doc.id hd
  obtain ⟨d2, hd2, he⟩ := List.mem_map.mp hmem
  rw [← he]
  exact hb d2 hd2

/-- `clear_ai_suggestion` preserves the invariant. -/
lemma inv_clearAI {a : App} (h : Inv a) (w : Nat) : Inv (clearAI a w) := by
  obtain ⟨⟨hnd, hbound⟩, hghost⟩ := h
  have hids : (clearAI a w).docs.map Doc.id = a.docs.map Doc.id :=
    id_map_of_regView (regView_clearAI a w)
  refine ⟨⟨by rw [hids]; exact hnd, ?_⟩, ?_⟩
  · rw [show (clearAI a w).nextId = a.nextId from clearErr_nextId false false false a w]
    exact lt_next_of_map_eq hids hbound
  · intro d' hmem hg
    rcases clearAI_ghost hmem hg with ⟨hfail, he, hd'⟩ | ⟨hwid, hsugg, hid2, hd'⟩
    · rw [he]
      exact hghost d' hd' hg
    · exfalso
      obtain ⟨hw', _, _⟩ := hghost d' hd' hg
      rw [hwid] at hw'
      exact hid2 (Option.some.inj hw').symm

/-- After `clear_ai_suggestion` on the active widget no document
displays a ghost. -/
lemma clearAI_noGhost_of_active {a : App} {w : Nat} (h : Inv a)
    (hact : a.active = some w) :
    ∀ d' ∈ (clearAI a w).docs, hasGhost d'.tw.buf = false := by
  intro d' hmem
  by_contra hgn
  have hg : hasGhost d'.tw.buf = true := by
    cases hgb : hasGhost d'.tw.buf
    · exact absurd hgb hgn
    · rfl
  rcases clearAI_ghost hmem hg with ⟨hfail, _, hd'⟩ | ⟨_, _, hid2, hd'⟩
  · obtain ⟨hw', hact', hsugg'⟩ := h.2 d' hd' hg
    rw [hact] at hact'
    have hidw : d'.id = w := (Option.some.inj hact').symm
    rcases hfail with hempty | hne
    · exact hsugg' hempty
    · rw [hidw] at hw'
      exact hne hw'
  · obtain ⟨_, hact', _⟩ := h.2 d' hd' hg
    rw [hact] at hact'
    exact hid2 (Option.some.inj hact').symm

/-- After `clear_ai_suggestion` on the tracked widget no document
displays a ghost. -/
lemma clearAI_noGhost_of_widget {a : App} {w : Nat} (h : Inv a)
    (hwid : a.aiWidget = some w) :
    ∀ d' ∈ (clearAI a w).docs, hasGhost d'.tw.buf = false := by
  intro d' hmem
  by_contra hgn
  have hg : hasGhost d'.tw.buf = true := by
    cases hgb : hasGhost d'.tw.buf
    · exact absurd hgb hgn
    · rfl
  rcases clearAI_ghost hmem hg with ⟨hfail, _, hd'⟩ | ⟨_, _, hid2, hd'⟩
  · obtain ⟨hw', _, hsugg'⟩ := h.2 d' hd' hg
    rcases hfail with hempty | hne
    · exact hsugg' hempty
    · rw [hwid] at hne
      exact hne rfl
  · obtain ⟨hw', _, _⟩ := h.2 d' hd' hg
    rw [hwid] at hw'
    exact hid2 (Option.some.inj hw').symm


lemma ghost_through_bufpreserving {a : App} {w : Nat} {f : TextWidget → TextWidget}
    {d' : Doc} (h : d' ∈ (updDoc a w f).docs)
    (hbuf : ∀ tw, (f tw).buf = tw.buf) (hg : hasGhost d'.tw.buf = true) :
    ∃ d ∈ a.docs, d.id = d'.id ∧ hasGhost d.tw.buf = true := by
  obtain ⟨d, hd, hcase⟩ := mem_updDoc' h
  rcases hcase with ⟨hdw, hdw', htw⟩ | ⟨_, heq⟩
  · refine ⟨d, hd, by rw [hdw, hdw'], ?_⟩
    rw [htw, hbuf] at hg
    exact hg
  · subst heq
    exact ⟨_, hd, rfl, hg⟩

lemma inv_show {a : App} (h : Inv a) (w : Nat) (raw : List Char) :
    Inv (showAISuggestion a w raw) := by
  unfold showAISuggestion
  cases hcur : currentTabInfo a with
  | none => exact h
  | some cur =>
    dsimp only
    by_cases hidw : cur.id ≠ w
    · rw [if_pos hidw]; exact h
    · rw [if_neg hidw]
      push_neg at hidw
      have hact : a.active = some w := by rw [← hidw]; exact currentTab_id hcur
      by_cases hempty : raw = [] ∨ pyStrip raw = []
      · rw [if_pos hempty]; exact h
      · rw [if_neg hempty]
        have hinv1 : Inv (clearAI a w) := inv_clearAI h w
        have hnog1 : ∀ d' ∈ (clearAI a w).docs, hasGhost d'.tw.buf = false :=
          clearAI_noGhost_of_active h hact
        have hact1 : (clearAI a w).active = some w := by
          rw [show (clearAI a w).active = a.active from clearErr_active false false false a w]
          exact hact
        have hnext1 : (clearAI a w).nextId = a.nextId := clearErr_nextId false false false a w
        -- the state after setting the tracking variables
        cases hgd : getDoc { clearAI a w with
            aiSuggestion := cleanSuggestion raw, aiWidget := some w } w with
        | none =>
          refine ⟨hinv1.1, ?_⟩
          intro d' hd' hg
          exact absurd (hnog1 d' hd') (by simp [hg])
        | some d =>
          have hu : ∀ (b : App) (f : TextWidget → TextWidget),
              (updDoc b w f).docs.map Doc.id = b.docs.map Doc.id :=
            fun b f => id_map_of_regView (regView_updDoc b w f)
          have he : ∀ (b : App) (f : TextWidget → TextWidget),
              (editDoc b w f).docs.map Doc.id = b.docs.map Doc.id :=
            fun b f => id_map_of_regView (regView_editDoc b w f)
          have hcids : (clearAI a w).docs.map Doc.id = a.docs.map Doc.id :=
            id_map_of_regView (regView_clearAI a w)
          refine ⟨⟨?_, ?_⟩, ?_⟩
          · simp only [hu, he, hcids]
            exact h.1.1
          · intro d2 hd2
            show d2.id < (clearAI a w).nextId
            rw [hnext1]
            exact lt_next_of_map_eq (by simp only [hu, he, hcids]) h.1.2 d2 hd2
          · intro d' hmem hg
            -- peel editDoc/updDoc layers back to the cleared state
            obtain ⟨d7, hd7, hid7, hg7⟩ :=
              ghost_through_bufpreserving hmem (fun tw => rfl) hg
            obtain ⟨d6, hd6, hid6, hg6⟩ :=
              ghost_through_bufpreserving hd7 (fun tw => rfl) hg7
            dsimp only at hd6
            obtain ⟨d4, hd4, hcase⟩ := mem_editDoc hd6
            rcases hcase with ⟨hd4w, hd6w, htw⟩ | ⟨_, heq⟩
            · -- the ghost sits in the freshly inserted suggestion
              by_cases hsnil : cleanSuggestion raw = []
              · exfalso
                rw [htw, hsnil] at hg6
                rw [show twInsert d4.tw d.tw.cursor [] true = d4.tw by
                  unfold twInsert; simp] at hg6
                obtain ⟨d3, hd3, _, hg3⟩ :=
                  ghost_through_bufpreserving hd4 (fun tw => rfl) hg6
                exact absurd (hnog1 d3 hd3) (by simp [hg3])
              · have hidw' : d'.id = w := by rw [← hid7, ← hid6, hd6w]
                rw [hidw']
                exact ⟨rfl, hact1, hsnil⟩
            · exfalso
              subst heq
              obtain ⟨d3, hd3, _, hg3⟩ :=
                ghost_through_bufpreserving hd4 (fun tw => rfl) hg6
              exact absurd (hnog1 d3 hd3) (by simp [hg3])


lemma hasGhost_twInsert_untagged (tw : TextWidget) (pos : Nat) (s : List Char) :
    hasGhost (twInsert tw pos s false).buf = hasGhost tw.buf := by
  unfold twInsert
  split
  · rfl
  · show hasGhost (tw.buf.take pos ++ s.map (fun c => (c, false)) ++ tw.buf.drop pos) =
      hasGhost tw.buf
    have hsplit : tw.buf.any (fun cb => cb.2) =
        ((tw.buf.take pos).any (fun cb => cb.2) || (tw.buf.drop pos).any (fun cb => cb.2)) := by
      conv_lhs => rw [← List.take_append_drop pos tw.buf]
      rw [List.any_append]
    have hm : (s.map (fun c => (c, false))).any (fun cb => cb.2) = false :=
      hasGhost_untag s
    simp [hasGhost, List.any_append, hsplit, hm]

lemma hasGhost_twDelete (tw : TextWidget) (p q : Nat) :
    hasGhost (twDelete tw p q).buf = true → hasGhost tw.buf = true := by
  intro hg
  by_cases hc : p < q ⊓ tw.buf.length
  · have hbuf : (twDelete tw p q).buf =
        tw.buf.take p ++ tw.buf.drop (q ⊓ tw.buf.length) := by
      unfold twDelete
      rw [if_pos hc]
    rw [hbuf] at hg
    simp only [hasGhost, List.any_eq_true] at hg ⊢
    obtain ⟨x, hx, hflag⟩ := hg
    rcases List.mem_append.mp hx with hx1 | hx2
    · exact ⟨x, List.mem_of_mem_take hx1, hflag⟩
    · exact ⟨x, List.mem_of_mem_drop hx2, hflag⟩
  · have hbuf : (twDelete tw p q).buf = tw.buf := by
      unfold twDelete
      rw [if_neg hc]
    rw [hbuf] at hg
    exact hg

lemma ghost_through_editDoc {a : App} {w : Nat} {f : TextWidget → TextWidget}
    {d' : Doc} (h : d' ∈ (editDoc a w f).docs)
    (hf : ∀ tw, hasGhost (f tw).buf = true → hasGhost tw.buf = true)
    (hg : hasGhost d'.tw.buf = true) :
    ∃ d ∈ a.docs, d.id = d'.id ∧ hasGhost d.tw.buf = true := by
  obtain ⟨d, hd, hcase⟩ := mem_editDoc h
  rcases hcase with ⟨hdw, hdw', htw⟩ | ⟨_, heq⟩
  · refine ⟨d, hd, by rw [hdw, hdw'], ?_⟩
    rw [htw] at hg
    exact hf d.tw hg
  · subst heq
    exact ⟨_, hd, rfl, hg⟩

lemma ghostOk_docsOnly {a : App} (a' : App) (hW : a'.aiWidget = a.aiWidget)
    (hA : a'.active = a.active) (hS : a'.aiSuggestion = a.aiSuggestion)
    (htrans : ∀ d' ∈ a'.docs, hasGhost d'.tw.buf = true →
      ∃ d ∈ a.docs, d.id = d'.id ∧ hasGhost d.tw.buf = true)
    (h : ghostOk a) : ghostOk a' := by
  intro d' hd' hg
  obtain ⟨d, hd, hid, hgd⟩ := htrans d' hd' hg
  obtain ⟨c1, c2, c3⟩ := h d hd hgd
  rw [hW, hA, hS, ← hid]
  exact ⟨c1, c2, c3⟩

lemma inv_editDoc_ghostpres {a : App} (h : Inv a) (w : Nat)
    (f : TextWidget → TextWidget)
    (hf : ∀ tw, hasGhost (f tw).buf = true → hasGhost tw.buf = true) :
    Inv (editDoc a w f) := by
  have he : (editDoc a w f).docs.map Doc.id = a.docs.map Doc.id :=
    id_map_of_regView (regView_editDoc a w f)
  refine ⟨⟨by rw [he]; exact h.1.1, lt_next_of_map_eq he h.1.2⟩, ?_⟩
  exact ghostOk_docsOnly (editDoc a w f)
    (show (editDoc a w f).aiWidget = a.aiWidget from rfl)
    (show (editDoc a w f).active = a.active from rfl)
    (show (editDoc a w f).aiSuggestion = a.aiSuggestion from rfl)
    (fun d' hd' hg => ghost_through_editDoc hd' hf hg) h.2

lemma inv_classEdit {a : App} (h : Inv a) (k : Key) (w : Nat) :
    Inv (classEdit a k w) := by
  cases k with
  | printable c =>
    exact inv_editDoc_ghostpres h w _
      (fun tw hgt => by rwa [hasGhost_twInsert_untagged] at hgt)
  | returnKey =>
    exact inv_editDoc_ghostpres h w _
      (fun tw hgt => by rwa [hasGhost_twInsert_untagged] at hgt)
  | backspace =>
    exact inv_editDoc_ghostpres h w _
      (fun tw hgt => hasGhost_twDelete tw (tw.cursor - 1) tw.cursor hgt)
  | modifier => exact h
  | navigation => exact h

lemma inv_accept {a : App} (h : Inv a) (w : Nat) :
    Inv (acceptAISuggestion a w) := by
  unfold acceptAISuggestion
  by_cases hguard : a.aiSuggestion = [] ∨ a.aiWidget ≠ some w
  · rw [if_pos hguard]; exact h
  · rw [if_neg hguard]
    push_neg at hguard
    obtain ⟨hsugg, hwid⟩ := hguard
    cases hst : a.aiStart with
    | none =>
      exact inv_clearAI
        (show Inv { a with aiStart := none, isAccepting := true } from h) w
    | some p =>
      dsimp only
      have h1 : Inv { a with aiStart := some p, isAccepting := true } := h
      have hwid1 : ({ a with aiStart := some p, isAccepting := true } : App).aiWidget =
          some w := hwid
      have hinv2 := inv_clearAI h1 w
      have hnog2 := clearAI_noGhost_of_widget h1 hwid1
      have hua : ∀ (b : App) (f : TextWidget → TextWidget),
          (updDoc b w f).docs.map Doc.id = b.docs.map Doc.id :=
        fun b f => id_map_of_regView (regView_updDoc b w f)
      have hee : ∀ (b : App) (f : TextWidget → TextWidget),
          (editDoc b w f).docs.map Doc.id = b.docs.map Doc.id :=
        fun b f => id_map_of_regView (regView_editDoc b w f)
      refine ⟨⟨?_, ?_⟩, ?_⟩
      · simp only [hua, hee]
        exact hinv2.1.1
      · intro d2 hd2
        show d2.id < (clearAI { a with aiStart := some p, isAccepting := true } w).nextId
        exact lt_next_of_map_eq (by simp only [hua, hee]) hinv2.1.2 d2 hd2
      · intro d' hmem hg
        have hmem4 : d' ∈ (updDoc
            (editDoc (clearAI { a with aiStart := some p, isAccepting := true } w) w
              (fun tw => twInsert tw p a.aiSuggestion false)) w
            (fun tw => { tw with cursor := p + a.aiSuggestion.length })).docs := hmem
        obtain ⟨d4, hd4, hid4, hg4⟩ :=
          ghost_through_bufpreserving hmem4 (fun tw => rfl) hg
        obtain ⟨d3, hd3, hid3, hg3⟩ := ghost_through_editDoc hd4
          (fun tw hgt => by rwa [hasGhost_twInsert_untagged] at hgt) hg4
        exact absurd (hnog2 d3 hd3) (by simp [hg3])

lemma inv_reject {a : App} (h : Inv a) (w : Nat) :
    Inv (rejectAISuggestion a w) := by
  unfold rejectAISuggestion
  split
  · exact inv_clearAI h w
  · exact h

lemma inv_click {a : App} (h : Inv a) (w : Nat) :
    Inv (onMouseClick a w) := by
  unfold onMouseClick
  split
  · exact inv_clearAI h w
  · exact h

lemma inv_keyPress {a : App} (h : Inv a) (k : Key) (w : Nat) :
    Inv (onKeyPressClearGhost a k w) := by
  unfold onKeyPressClearGhost
  cases k
  · dsimp only
    split
    · exact inv_clearAI h w
    · exact h
  · dsimp only
    split
    · exact inv_clearAI h w
    · exact h
  · dsimp only
    split
    · exact inv_clearAI h w
    · exact h
  · exact h
  · dsimp only
    split
    · exact inv_clearAI h w
    · exact h

lemma inv_keyRelease {a : App} (h : Inv a) (k : Key) (w : Nat) :
    Inv (onKeyReleaseForAI a k w) := by
  unfold onKeyReleaseForAI
  split
  · exact h
  · split
    · exact inv_clearAI h w
    · split
      · exact h
      · split
        · exact h
        · exact inv_clearAI h w

lemma inv_releaseClear {a : App} (h : Inv a) (w : Nat) :
    Inv (releaseIgnoredClear a w) := by
  unfold releaseIgnoredClear
  split
  · exact h
  · exact inv_clearAI h w

lemma inv_request {a : App} (h : Inv a) (w : Nat) :
    Inv (requestAISuggestion a w) := by
  unfold requestAISuggestion
  have h1 : Inv (clearAI a w) := inv_clearAI h w
  dsimp only
  cases hd : getDoc (clearAI a w) w with
  | none => exact h1
  | some d =>
    cases hl : currentLineOf (clearAI a w) w with
    | none => exact h1
    | some line =>
      dsimp only
      split
      · exact h1
      · exact h1

lemma inv_timerFire {a : App} (h : Inv a) : Inv (timerFire a) := by
  unfold timerFire
  cases a.timer
  · exact h
  · exact inv_request (show Inv { a with timer := none } from h) _

lemma idsOk_docsEq {a : App} (a' : App)
    (hd : a'.docs.map Doc.id = a.docs.map Doc.id)
    (hn : a'.nextId = a.nextId) (h : idsOk a) : idsOk a' := by
  refine ⟨by rw [hd]; exact h.1, ?_⟩
  rw [hn]
  exact lt_next_of_map_eq hd h.2

lemma map_id_lt {a : App} (h : ∀ d ∈ a.docs, d.id < a.nextId) :
    ∀ m ∈ a.docs.map Doc.id, m < a.nextId := by
  intro m hm
  obtain ⟨d2, hd2, he⟩ := List.mem_map.mp hm
  rw [← he]
  exact h d2 hd2

lemma nodup_append_fresh {xs : List Nat} {n : Nat} (hnd : xs.Nodup)
    (hlt : ∀ m ∈ xs, m < n) : (xs ++ [n]).Nodup := by
  rw [List.nodup_append]
  refine ⟨hnd, List.nodup_singleton n, ?_⟩
  intro m hm hm'
  rw [List.mem_singleton] at hm'
  subst hm'
  exact absurd (hlt m hm) (lt_irrefl m)

/-- Selecting a tab fires the old widget's FocusOut clear (or nothing),
so afterwards no document displays a ghost and the invariant holds. -/
lemma inv_selectTab {a : App} (h : Inv a) (dst : Nat) :
    Inv (selectTab a dst) := by
  unfold selectTab
  split
  · exact h
  · cases hact : a.active with
    | none =>
      dsimp only
      refine ⟨h.1, ?_⟩
      intro d hd hg
      obtain ⟨_, hact', _⟩ := h.2 d hd hg
      rw [hact] at hact'
      cases hact'
    | some oldW =>
      dsimp only
      have hng := clearAI_noGhost_of_active h hact
      refine ⟨?_, ?_⟩
      · exact idsOk_docsEq _ (id_map_of_regView (regView_clearAI a oldW))
          (clearErr_nextId false false false a oldW) h.1
      · intro d hd hg
        rw [hng d hd] at hg
        cases hg

/-- Opening a fresh tab: the appended document has the fresh id
`nextId` and an untagged buffer; the old active widget's ghost is
cleared by its FocusOut. -/
lemma inv_newTab {a a1 : App} (h : Inv a)
    (hmap : a1.docs.map Doc.id = a.docs.map Doc.id)
    (hng : ∀ d ∈ a1.docs, hasGhost d.tw.buf = false)
    {a' : App} {d : Doc}
    (hdocs : a'.docs = a1.docs ++ [d]) (hid : d.id = a.nextId)
    (hnext : a'.nextId = a.nextId + 1)
    (hdg : hasGhost d.tw.buf = false) : Inv a' := by
  refine ⟨⟨?_, ?_⟩, ?_⟩
  · rw [hdocs]
    simp only [List.map_append, List.map_cons, List.map_nil, hmap, hid]
    exact nodup_append_fresh h.1.1 (map_id_lt h.1.2)
  · intro d2 hd2
    rw [hdocs] at hd2
    rw [hnext]
    rcases List.mem_append.mp hd2 with hl | hr
    · have : d2.id ∈ a.docs.map Doc.id := by
        rw [← hmap]
        exact List.mem_map_of_mem Doc.id hl
      obtain ⟨d3, hd3, he⟩ := List.mem_map.mp this
      rw [← he]
      exact Nat.lt_succ_of_lt (h.1.2 d3 hd3)
    · rw [List.mem_singleton] at hr
      subst hr
      rw [hid]
      exact Nat.lt_succ_self _
  · intro d2 hd2 hg
    rw [hdocs] at hd2
    rcases List.mem_append.mp hd2 with hl | hr
    · rw [hng d2 hl] at hg
      cases hg
    · rw [List.mem_singleton] at hr
      subst hr
      rw [hdg] at hg
      cases hg

lemma inv_createEditorTab {a : App} (h : Inv a) (title : String)
    (content : List Char) (fp : Option String) :
    Inv (createEditorTab a title content fp) := by
  unfold createEditorTab
  have hfresh : hasGhost (twInsert
      { buf := [], cursor := 0, ustack := [], lastMode := .other }
      0 content false).buf = false := by
    rw [hasGhost_twInsert_untagged]
    rfl
  cases hact : a.active with
  | none =>
    dsimp only
    exact inv_newTab h rfl
      (fun d hd => by
        cases hgb : hasGhost d.tw.buf
        · rfl
        · obtain ⟨_, hact', _⟩ := h.2 d hd hgb
          rw [hact] at hact'
          cases hact')
      rfl rfl rfl hfresh
  | some oldW =>
    dsimp only
    exact inv_newTab h (id_map_of_regView (regView_clearAI a oldW))
      (clearAI_noGhost_of_active h hact) rfl rfl rfl hfresh

lemma inv_fileNew {a : App} (h : Inv a) : Inv (fileNew a) :=
  inv_createEditorTab
    (show Inv { a with untitledCount := a.untitledCount + 1 } from h) _ _ _

lemma inv_openFile {a : App} (h : Inv a) (path : String)
    (content : Option (List Char)) : Inv (openFile a path content) := by
  unfold openFile
  cases hfind : a.docs.find? (fun d => d.filePath = some path) with
  | some d => exact inv_selectTab h d.id
  | none =>
    cases content with
    | none => exact h
    | some c => exact inv_createEditorTab h (basename path) c (some path)

lemma inv_save {a : App} (h : Inv a) : Inv (saveCurrentTab a) := by
  unfold saveCurrentTab
  cases hcur : currentTabInfo a with
  | none => exact h
  | some d =>
    have hact : a.active = some d.id := currentTab_id hcur
    have h1 : Inv (clearAI a d.id) := inv_clearAI h d.id
    have hng := clearAI_noGhost_of_active h hact
    dsimp only
    cases hfp : d.filePath with
    | none => exact h1
    | some fp =>
      dsimp only
      have hmapid : ((clearAI a d.id).docs.map
          (fun d' => if d'.id = d.id then { d' with modified := false } else d')).map
            Doc.id = (clearAI a d.id).docs.map Doc.id := by
        rw [List.map_map]
        apply List.map_congr_left
        intro d' _
        by_cases hid : d'.id = d.id <;> simp [hid]
      refine ⟨⟨?_, ?_⟩, ?_⟩
      · show (List.map Doc.id ((clearAI a d.id).docs.map
            (fun d' => if d'.id = d.id then { d' with modified := false } else d'))).Nodup
        rw [hmapid]
        exact h1.1.1
      · intro d2 hd2
        show d2.id < (clearAI a d.id).nextId
        have hd2' : d2 ∈ (clearAI a d.id).docs.map
            (fun d' => if d'.id = d.id then { d' with modified := false } else d') := hd2
        exact lt_next_of_map_eq hmapid h1.1.2 d2 hd2'
      · intro d2 hd2 hg
        have hd2' : d2 ∈ (clearAI a d.id).docs.map
            (fun d' => if d'.id = d.id then { d' with modified := false } else d') := hd2
        obtain ⟨d', hd', he⟩ := List.mem_map.mp hd2'
        have hgd' : hasGhost d'.tw.buf = true := by
          by_cases hid : d'.id = d.id
          · rw [← he] at hg
            simpa [hid] using hg
          · rw [← he] at hg
            simpa [hid] using hg
        rw [hng d' hd'] at hgd'
        cases hgd'

lemma inv_runCode {a : App} (h : Inv a) : Inv (runCode a) := by
  unfold runCode
  cases hcur : currentTabInfo a with
  | none => exact h
  | some d => exact inv_clearAI h d.id

/-- In a registry with pairwise-distinct ids, every survivor of
`eraseIdx` has an id different from the erased document's. -/
lemma eraseIdx_id_fresh : ∀ (l : List Doc) (idx : Nat) (d : Doc),
    l.get? idx = some d → (l.map Doc.id).Nodup →
    ∀ d2 ∈ l.eraseIdx idx, d2.id ≠ d.id := by
  intro l
  induction l with
  | nil => intro idx d hget; cases hget
  | cons x xs ih =>
    intro idx d hget hnd d2 hd2
    rcases List.nodup_cons.mp hnd with ⟨hx, hnd'⟩
    cases idx with
    | zero =>
      have hd : d = x := (Option.some.inj hget).symm
      subst hd
      rw [List.eraseIdx_cons_zero] at hd2
      intro hc
      exact hx (hc ▸ List.mem_map_of_mem Doc.id hd2)
    | succ n =>
      rw [List.eraseIdx_cons_succ] at hd2
      rw [List.get?_cons_succ] at hget
      rcases List.mem_cons.mp hd2 with hxx | hmem
      · subst hxx
        intro hc
        have hdm : d ∈ xs := List.get?_mem hget
        exact hx (hc ▸ List.mem_map_of_mem Doc.id hdm)
      · exact ih n d hget hnd' d2 hmem

lemma inv_removeTab {a : App} (h : Inv a) (idx : Nat) :
    Inv (removeTab a idx) := by
  unfold removeTab
  cases hget : a.docs.get? idx with
  | none => exact h
  | some d =>
    dsimp only
    have hsub : List.Sublist (a.docs.eraseIdx idx) a.docs :=
      List.eraseIdx_sublist a.docs idx
    have hfresh := eraseIdx_id_fresh a.docs idx d hget h.1.1
    refine ⟨⟨(hsub.map Doc.id).nodup h.1.1, ?_⟩, ?_⟩
    · intro d2 hd2
      have hd2' : d2 ∈ a.docs.eraseIdx idx := hd2
      exact h.1.2 d2 (hsub.subset hd2')
    · intro d2 hd2 hg
      have hd2' : d2 ∈ a.docs.eraseIdx idx := hd2
      obtain ⟨hw, hact, hsugg⟩ := h.2 d2 (hsub.subset hd2') hg
      refine ⟨hw, ?_, hsugg⟩
      have hcond : ¬(a.active = some d.id) := by
        rw [hact]
        intro hc
        exact hfresh d2 hd2' (Option.some.inj hc)
      show (if a.active = some d.id then _ else a.active) = some d2.id
      rw [if_neg hcond]
      exact hact

lemma inv_closeTab {a : App} (h : Inv a) (idx : Nat) (resp : Option Bool) :
    Inv (closeTab a idx resp) := by
  unfold closeTab
  split
  · exact h
  · cases hget : a.docs.get? idx with
    | none => exact h
    | some d =>
      dsimp only
      split
      · cases resp with
        | none => exact h
        | some b =>
          cases b
          · exact inv_removeTab h idx
          · exact inv_removeTab (inv_save h) idx
      · exact inv_removeTab h idx

/-- Every UI event preserves the invariant. -/
lemma inv_step {a : App} (h : Inv a) (e : Ev) : Inv (step a e) := by
  cases e with
  | keyPressE k =>
    unfold step
    cases a.active with
    | none => exact h
    | some w => exact inv_keyPress h k w
  | classEditE k =>
    unfold step
    cases a.active with
    | none => exact h
    | some w => exact inv_classEdit h k w
  | keyReleaseE k =>
    unfold step
    cases a.active with
    | none => exact h
    | some w => exact inv_keyRelease h k w
  | acceptE =>
    unfold step
    cases a.active with
    | none => exact h
    | some w => exact inv_accept h w
  | tabReleaseE =>
    unfold step
    cases a.active with
    | none => exact h
    | some w => exact inv_releaseClear h w
  | escapeE =>
    unfold step
    cases a.active with
    | none => exact h
    | some w => exact inv_reject h w
  | escReleaseE =>
    unfold step
    cases a.active with
    | none => exact h
    | some w => exact inv_releaseClear h w
  | clickE =>
    unfold step
    cases a.active with
    | none => exact h
    | some w => exact inv_click h w
  | focusOutE w => exact inv_clearAI h w
  | deliverE w raw => exact inv_show h w raw
  | timerE => exact inv_timerFire h
  | tabSwitchE dst =>
    unfold step
    dsimp only
    cases hgd : getDoc a dst with
    | none => exact h
    | some d => exact inv_selectTab h dst
  | saveE => exact inv_save h
  | runE => exact inv_runCode h
  | openE p c => exact inv_openFile h p c
  | newE => exact inv_fileNew h
  | closeE i r => exact inv_closeTab h i r

lemma inv_init (avail autoSuggest : Bool) : Inv (initApp avail autoSuggest) :=
  ⟨⟨List.nodup_nil, fun d hd => absurd hd (List.not_mem_nil d)⟩,
   fun d hd _ => absurd hd (List.not_mem_nil d)⟩

lemma inv_runEvents {a : App} (h : Inv a) (es : List Ev) :
    Inv (runEvents a es) := by
  induction es generalizing a with
  | nil => exact h
  | cons e es ih => exact ih (inv_step h e)

/-- Under the invariant at most one document displays a ghost: every
displaying document's id equals the single tracked widget id, and ids
are pairwise distinct. -/
lemma ghostDocCount_le_one {a : App} (h : Inv a) : ghostDocCount a ≤ 1 := by
  unfold ghostDocCount
  cases hf : a.docs.filter (fun d => hasGhost d.tw.buf) with
  | nil => simp
  | cons d1 rest =>
    cases rest with
    | nil => simp
    | cons d2 rest2 =>
      exfalso
      have hsubf : List.Sublist (a.docs.filter (fun d => hasGhost d.tw.buf)) a.docs :=
        List.filter_sublist a.docs
      have hndf : ((a.docs.filter (fun d => hasGhost d.tw.buf)).map Doc.id).Nodup :=
        (hsubf.map Doc.id).nodup h.1.1
      rw [hf, List.map_cons, List.map_cons] at hndf
      have hd1 : d1 ∈ a.docs.filter (fun d => hasGhost d.tw.buf) := by
        rw [hf]
        exact List.mem_cons_self _ _
      have hd2 : d2 ∈ a.docs.filter (fun d => hasGhost d.tw.buf) := by
        rw [hf]
        exact List.mem_cons_of_mem _ (List.mem_cons_self _ _)
      obtain ⟨hm1, hg1⟩ := List.mem_filter.mp hd1
      obtain ⟨hm2, hg2⟩ := List.mem_filter.mp hd2
      obtain ⟨hw1, _, _⟩ := h.2 d1 hm1 hg1
      obtain ⟨hw2, _, _⟩ := h.2 d2 hm2 hg2
      have hid : d1.id = d2.id := by
        rw [hw1] at hw2
        exact Option.some.inj hw2
      rcases List.nodup_cons.mp hndf with ⟨hnot, _⟩
      exact hnot (hid ▸ List.mem_cons_self d2.id (rest2.map Doc.id))

/-- C1: from the freshly started editor, after any sequence of UI
events (keystrokes, deliveries, timer firings, tab and file
operations) at most one open document displays a ghost suggestion. -/
theorem c1_at_most_one_ghost (avail autoSuggest : Bool) (es : List Ev) :
    ghostDocCount (runEvents (initApp avail autoSuggest) es) ≤ 1 :=
  ghostDocCount_le_one (inv_runEvents (inv_init avail autoSuggest) es)

/-- C2 counterexample: a qualifying keystroke while a completion
request is in flight does not make the delivery-time staleness check
reject the response.  From the fresh editor: type `x` (request issued
by the debounce timer, log `[0]`), then type `y` in the same widget,
then the response for the in-flight request arrives — and it is
displayed as a ghost overlay (one displaying document), not
rejected. -/
theorem c2_keystroke_not_rejected_counterexample :
    (runEvents (initApp true true)
        [Ev.newE, Ev.keyPressE (Key.printable 'x'),
         Ev.classEditE (Key.printable 'x'),
         Ev.keyReleaseE (Key.printable 'x'), Ev.timerE]).requests = [0] ∧
    ghostDocCount (runEvents (initApp true true)
        [Ev.newE, Ev.keyPressE (Key.printable 'x'),
         Ev.classEditE (Key.printable 'x'),
         Ev.keyReleaseE (Key.printable 'x'), Ev.timerE,
         Ev.keyPressE (Key.printable 'y'),
         Ev.classEditE (Key.printable 'y'),
         Ev.keyReleaseE (Key.printable 'y'),
         Ev.deliverE 0 ['s', 'u', 'g']]) = 1 ∧
    (runEvents (initApp true true)
        [Ev.newE, Ev.keyPressE (Key.printable 'x'),
         Ev.classEditE (Key.printable 'x'),
         Ev.keyReleaseE (Key.printable 'x'), Ev.timerE,
         Ev.keyPressE (Key.printable 'y'),
         Ev.classEditE (Key.printable 'y'),
         Ev.keyReleaseE (Key.printable 'y'),
         Ev.deliverE 0 ['s', 'u', 'g']]).requests = [0] :=
  ⟨rfl, rfl, rfl⟩

/-- C2 (amended): the staleness check that `show_ai_suggestion` runs
at delivery (src/main.py:1726-1732) is a widget-identity check, not a
keystroke-recency check: a resolved suggestion delivered for a widget
`w` that is no longer the active tab's widget is discarded, leaving
the state unchanged.  (A qualifying keystroke in the same widget does
not cause rejection — see the counterexample.) -/
theorem c2_stale_delivery_is_widget_identity (a : App) (w : Nat)
    (raw : List Char) (h : a.active ≠ some w) :
    showAISuggestion a w raw = a := by
  unfold showAISuggestion
  cases hcur : currentTabInfo a with
  | none => rfl
  | some cur =>
    have hact := currentTab_id hcur
    have hne : cur.id ≠ w := by
      intro hc
      exact h (hc ▸ hact)
    dsimp only
    rw [if_pos hne]

theorem c2_stale_delivery_is_widget_identity_witness :
    (runEvents (initApp true true) [Ev.newE]).active ≠ some 1 ∧
    showAISuggestion (runEvents (initApp true true) [Ev.newE]) 1 ['s']
      = runEvents (initApp true true) [Ev.newE] :=
  ⟨by decide, c2_stale_delivery_is_widget_identity _ 1 ['s'] (by decide)⟩

end Code404
